import Mathlib

/-!
Verification of the document-consolidation toolkit core
(`src/document_consolidation/core/{tournament,extractor,integrator,verifier}.py`
and `models/document.py`).

Shallow embedding conventions:
* Document text is modelled as `Str := List Char`; Python `str.split("\n")`
  and `"\n".join` become `splitCh` / `joinCh` below.
* Python `float` arithmetic is modelled with exact rationals (`ℚ`).
* External collaborators (the `re` regex module used for citation patterns,
  and the file repository) are parameters: a repository is a partial map
  from paths to contents, and regex search functions are passed in.
* Python's `difflib.SequenceMatcher` (external standard library) is modelled
  by `findLongestMatch` / `matchedTotal` following its documented semantics:
  the longest matching block, earliest in `a` then earliest in `b`, and the
  recursive decomposition used by `get_matching_blocks`.  Junk heuristics are
  absent because `autojunk` only affects sequences of length ≥ 200.
-/

set_option maxRecDepth 4000

namespace DocConsolidation

/-- Characters of a document; Python `str` content. -/
abbrev Str := List Char

/-- Python `s.split("\n")`: split a character list at newline characters.
The result is always nonempty; `[]` splits to `[[]]` like `"".split("\n") == [""]`. -/
def splitCh : Str → List Str
  | [] => [[]]
  | c :: cs =>
    if c = '\n' then [] :: splitCh cs
    else
      match splitCh cs with
      | [] => [[c]]
      | h :: t => (c :: h) :: t

/-- Python `"\n".join(lines)`. -/
def joinCh : List Str → Str
  | [] => []
  | [l] => l
  | l :: ls => l ++ '\n' :: joinCh ls

theorem splitCh_ne_nil (s : Str) : splitCh s ≠ [] := by
  induction s with
  | nil => simp [splitCh]
  | cons c cs ih =>
    simp only [splitCh]
    split
    · simp
    · cases h : splitCh cs with
      | nil => simp
      | cons a b => simp

theorem joinCh_cons_cons (l m : Str) (ls : List Str) :
    joinCh (l :: m :: ls) = l ++ '\n' :: joinCh (m :: ls) := rfl

theorem joinCh_splitCh (s : Str) : joinCh (splitCh s) = s := by
  induction s with
  | nil => simp [splitCh, joinCh]
  | cons c cs ih =>
    simp only [splitCh]
    split
    · rename_i hc
      subst hc
      cases h : splitCh cs with
      | nil => exact absurd h (splitCh_ne_nil cs)
      | cons a b =>
        rw [h] at ih
        simp [joinCh_cons_cons, joinCh, ← ih]
    · cases h : splitCh cs with
      | nil => exact absurd h (splitCh_ne_nil cs)
      | cons a b =>
        rw [h] at ih
        cases b with
        | nil => simp_all [joinCh]
        | cons b0 bs => simp_all [joinCh_cons_cons, joinCh]

/-- Splitting at an explicit newline separates cleanly. -/
theorem splitCh_append_newline (a b : Str) :
    splitCh (a ++ '\n' :: b) = splitCh a ++ splitCh b := by
  induction a with
  | nil => simp [splitCh]
  | cons c cs ih =>
    simp only [List.cons_append, splitCh]
    split
    · simp [splitCh, ih]
    · simp only [List.append_eq] at *
      rw [ih]
      cases h : splitCh cs with
      | nil => exact absurd h (splitCh_ne_nil cs)
      | cons x xs => simp

/-- Splitting a join refines every piece (`M` nonempty). -/
theorem splitCh_joinCh (M : List Str) (hM : M ≠ []) :
    splitCh (joinCh M) = M.flatMap splitCh := by
  induction M with
  | nil => exact absurd rfl hM
  | cons l ls ih =>
    cases ls with
    | nil => simp [joinCh]
    | cons m ms =>
      rw [joinCh_cons_cons, splitCh_append_newline, ih (by simp)]
      simp

/-- Every piece produced by `splitCh` is newline-free. -/
theorem no_newline_of_mem_splitCh {x : Str} {s : Str} (hx : x ∈ splitCh s) :
    '\n' ∉ x := by
  induction s generalizing x with
  | nil => simp [splitCh] at hx; simp [hx]
  | cons c cs ih =>
    simp only [splitCh] at hx
    split at hx
    · rcases List.mem_cons.mp hx with h | h
      · simp [h]
      · exact ih h
    · rename_i hc
      cases h : splitCh cs with
      | nil => exact absurd h (splitCh_ne_nil cs)
      | cons a b =>
        rw [h] at hx
        rcases List.mem_cons.mp hx with h1 | h1
        · subst h1
          intro hmem
          rcases List.mem_cons.mp hmem with h2 | h2
          · exact hc h2.symm
          · exact ih (h ▸ List.mem_cons_self a b) h2
        · exact ih (h ▸ List.mem_cons_of_mem a h1)

/-- A newline-free piece splits to itself. -/
theorem splitCh_eq_self {x : Str} (hx : '\n' ∉ x) : splitCh x = [x] := by
  induction x with
  | nil => simp [splitCh]
  | cons c cs ih =>
    simp only [splitCh]
    rw [if_neg (by intro h; exact hx (h ▸ List.mem_cons_self c cs))]
    rw [ih (fun h => hx (List.mem_cons_of_mem c h))]

/-- Any member line is a contiguous substring of the join. -/
theorem infix_joinCh_of_mem {x : Str} {M : List Str} (hx : x ∈ M) :
    x <:+: joinCh M := by
  induction M with
  | nil => simp at hx
  | cons l ls ih =>
    cases ls with
    | nil =>
      simp at hx
      simp [joinCh, hx]
    | cons m ms =>
      rw [joinCh_cons_cons]
      rcases List.mem_cons.mp hx with h | h
      · exact h ▸ (List.prefix_append x _).isInfix
      · refine (ih h).trans ?_
        rw [List.append_cons]
        exact (List.suffix_append (l ++ ['\n']) (joinCh (m :: ms))).isInfix

/-- `List.insert` of Python at an index: `l.insert(i, x)`.  Python clamps the
index to the list length, which `take`/`drop` do as well. -/
def insertAt (i : Nat) (x : α) (l : List α) : List α :=
  l.take i ++ x :: l.drop i

theorem mem_insertAt_of_mem {x y : α} {l : List α} (h : y ∈ l) (i : Nat) :
    y ∈ insertAt i x l := by
  unfold insertAt
  rw [← List.take_append_drop i l] at h
  rcases List.mem_append.mp h with h1 | h1
  · exact List.mem_append_left _ h1
  · exact List.mem_append_right _ (List.mem_cons_of_mem x h1)

/-- Inserting a (possibly multi-line) block string into the line list of a
text and re-joining preserves membership of every original line. -/
theorem mem_splitCh_insert {x : Str} {s : Str} (hx : x ∈ splitCh s)
    (i : Nat) (block : Str) :
    x ∈ splitCh (joinCh (insertAt i block (splitCh s))) := by
  rw [splitCh_joinCh _ (by simp [insertAt])]
  have hxm : x ∈ insertAt i block (splitCh s) := mem_insertAt_of_mem hx i
  refine List.mem_flatMap.mpr ⟨x, hxm, ?_⟩
  rw [splitCh_eq_self (no_newline_of_mem_splitCh hx)]
  simp

/-! ### Python string primitives -/

/-- Python `s.startswith(pat)`. -/
def pyStartsWith (s pat : Str) : Bool := pat.isPrefixOf s

/-- Python `pat in s` (substring containment). -/
def pyContains : Str → Str → Bool
  | [], pat => pat.isEmpty
  | c :: rest, pat => pat.isPrefixOf (c :: rest) || pyContains rest pat

/-- Python `s.lower()` (ASCII; the repository's data is ASCII markdown). -/
def pyLower (s : Str) : Str := s.map Char.toLower

/-- Python `str.isspace` characters relevant to `str.strip()`. -/
def pySpace (c : Char) : Bool :=
  c = ' ' || c = '\t' || c = '\n' || c = '\r' || c = '\x0b' || c = '\x0c'

/-- Python `s.strip()`. -/
def pyStrip (s : Str) : Str :=
  ((s.dropWhile pySpace).reverse.dropWhile pySpace).reverse

/-- Fuelled scanner for `countOccs`; the list shrinks by at least one element
per step, so fuel `s.length` makes the scan exact. -/
def countOccsF (pat : Str) : Nat → Str → Nat
  | 0, _ => 0
  | _, [] => 0
  | fuel + 1, c :: rest =>
    if pat.isPrefixOf (c :: rest) then
      1 + countOccsF pat fuel (rest.drop (pat.length - 1))
    else
      countOccsF pat fuel rest

/-- Python `s.count(pat)` for nonempty `pat`: non-overlapping occurrences,
scanning left to right.  (Never called with an empty pattern here.) -/
def countOccs (pat s : Str) : Nat := countOccsF pat s.length s

/-- Fuelled scanner for `replaceAll` (fuel `s.length` is exact as above). -/
def replaceAllF (pat sub : Str) : Nat → Str → Str
  | 0, s => s
  | _, [] => []
  | fuel + 1, c :: rest =>
    if pat.isPrefixOf (c :: rest) then
      sub ++ replaceAllF pat sub fuel (rest.drop (pat.length - 1))
    else
      c :: replaceAllF pat sub fuel rest

/-- Python `s.replace(pat, sub)` for nonempty `pat`: replace all
non-overlapping occurrences, left to right. -/
def replaceAll (pat sub s : Str) : Str := replaceAllF pat sub s.length s

/-- Decimal rendering of a natural number (for f-string interpolation). -/
def natStr (n : Nat) : Str := Nat.toDigits 10 n

/-- Rendering of a Python `int` (used for line-count deltas). -/
def intStr (i : Int) : Str :=
  if i < 0 then '-' :: natStr i.natAbs else natStr i.natAbs

/-! ### difflib model (external Python standard library)

`difflib.SequenceMatcher(None, a, b)` with no junk (autojunk only triggers
for sequences of length ≥ 200, far above the section sizes exercised here):
`find_longest_match(alo, ahi, blo, bhi)` returns the longest block
`a[i:i+k] == b[j:j+k]` with `alo ≤ i`, `i+k ≤ ahi`, `blo ≤ j`, `j+k ≤ bhi`;
of all maximal blocks it returns the one starting earliest in `a`, and of
those the one starting earliest in `b`.  `get_matching_blocks` decomposes
recursively around the longest match; `ratio` is `2*M/T` where `M` is the
total size of the matching blocks and `T = len(a)+len(b)` (`1.0` if `T = 0`).
-/

/-- Length of the longest common prefix. -/
def cpl [DecidableEq α] : List α → List α → Nat
  | a :: as, b :: bs => if a = b then cpl as bs + 1 else 0
  | _, _ => 0

/-- Size of the match of `a[i:ahi]` against `b[j:bhi]` starting at `(i, j)`. -/
def flmCand [DecidableEq α] (a b : List α) (ahi bhi i j : Nat) : Nat :=
  cpl ((a.take ahi).drop i) ((b.take bhi).drop j)

/-- Inner loop of `find_longest_match`: scan starting positions `j` in `b`. -/
def flmInner [DecidableEq α] (a b : List α) (ahi bhi i : Nat)
    (best : Nat × Nat × Nat) (js : List Nat) : Nat × Nat × Nat :=
  js.foldl
    (fun bst j =>
      if bst.2.2 < flmCand a b ahi bhi i j then (i, j, flmCand a b ahi bhi i j)
      else bst)
    best

/-- `find_longest_match`: `(i, j, size)` of the first maximal matching block. -/
def findLongestMatch [DecidableEq α] (a b : List α) (alo ahi blo bhi : Nat) :
    Nat × Nat × Nat :=
  (List.range' alo (ahi - alo)).foldl
    (fun bst i => flmInner a b ahi bhi i bst (List.range' blo (bhi - blo)))
    (alo, blo, 0)

/-- Matching blocks of `a[alo:ahi]` vs `b[blo:bhi]` in order
(`get_matching_blocks` recursion, fuelled; the fuel chosen in
`matchingBlocksOf` is sufficient because every recursive call strictly
shrinks the ranges).  The terminating zero-size sentinel block is omitted. -/
def mtBlocksAux [DecidableEq α] (a b : List α) :
    Nat → Nat → Nat → Nat → Nat → List (Nat × Nat × Nat)
  | 0, _, _, _, _ => []
  | fuel + 1, alo, ahi, blo, bhi =>
    let r := findLongestMatch a b alo ahi blo bhi
    if r.2.2 = 0 then []
    else
      mtBlocksAux a b fuel alo r.1 blo r.2.1 ++ r ::
        mtBlocksAux a b fuel (r.1 + r.2.2) ahi (r.2.1 + r.2.2) bhi

/-- `get_matching_blocks` (without the final sentinel). -/
def matchingBlocksOf [DecidableEq α] (a b : List α) : List (Nat × Nat × Nat) :=
  mtBlocksAux a b (a.length + b.length + 1) 0 a.length 0 b.length

/-- `M`: total size of all matching blocks of `a` vs `b`. -/
def matchedTotal [DecidableEq α] (a b : List α) : Nat :=
  ((matchingBlocksOf a b).map (fun r => r.2.2)).sum

/-- `SequenceMatcher(None, a, b).ratio()` as an exact rational. -/
def ratioQ [DecidableEq α] (a b : List α) : ℚ :=
  if (a.length : ℚ) + (b.length : ℚ) = 0 then 1
  else 2 * (matchedTotal a b : ℚ) / ((a.length : ℚ) + (b.length : ℚ))

/-- The line-break characters recognised by Python `str.splitlines()`. -/
def isLineBreak (c : Char) : Bool :=
  c = '\n' || c = '\r' || c = '\x0b' || c = '\x0c' ||
    c = '\x1c' || c = '\x1d' || c = '\x1e' || c = '\u0085' ||
    c = '\u2028' || c = '\u2029'

/-- Scanner for `pySplitlines`: `cur` holds the current line reversed;
`\r\n` counts as a single break, and a terminal break does not produce a
trailing empty line. -/
def pySplitlinesGo (cur : Str) : Str → List Str
  | [] => if cur.isEmpty then [] else [cur.reverse]
  | '\r' :: '\n' :: cs => cur.reverse :: pySplitlinesGo [] cs
  | c :: cs =>
    if isLineBreak c then cur.reverse :: pySplitlinesGo [] cs
    else pySplitlinesGo (c :: cur) cs

/-- Python `s.splitlines()`: split at every line-break character
(`\n`, `\r`, `\r\n`, `\v`, `\f`, the ASCII separators `\x1c`–`\x1e`,
`\x85`, `\u2028`, `\u2029`), without a trailing empty line when the text
ends in a break. -/
def pySplitlines (s : Str) : List Str := pySplitlinesGo [] s

/-- The diff lines the source keeps from
`difflib.unified_diff(champ, other, lineterm="")` via
`line.startswith("+") and not line.startswith("+++")`.  Every line of
`other` outside the matching blocks is printed exactly once as `+` plus
the line text (inside an `insert` or `replace` opcode group, in position
order); lines inside matching blocks are printed with a leading space,
and the `---`/`@@` lines and the `+++ ` file header never start with a
single `+`.  The `startswith("+++")` test drops that file header, but it
also drops every added content line whose own text begins `++` (its diff
rendering `+++…` is indistinguishable from the header prefix). -/
def diffAddedLines (champLines otherLines : List Str) : List Str :=
  let blocks := matchingBlocksOf champLines otherLines
  (((List.range otherLines.length).filter
      (fun j => ¬ blocks.any (fun r => r.2.1 ≤ j ∧ j < r.2.1 + r.2.2))).map
    (fun j => '+' :: otherLines.getD j [])).filter
    (fun dl => pyStartsWith dl "+".data && !(pyStartsWith dl "+++".data))

/-- Modelled from the spec: "count lines introduced only in the
non-champion version (ignoring diff-header lines)" — the number of
non-champion lines outside the matching blocks, the ignored diff headers
being the `---`/`+++` file-header lines, which are not content lines.
This is the count the original claim C3 speaks about; the code's
`diffAddedLines` additionally drops introduced lines whose text begins
`++`. -/
def introducedLinesCount (champLines otherLines : List Str) : Nat :=
  ((List.range otherLines.length).filter
    (fun j => ¬ (matchingBlocksOf champLines otherLines).any
      (fun r => r.2.1 ≤ j ∧ j < r.2.1 + r.2.2))).length

/-! Self-comparison facts for the difflib model. -/

theorem cpl_self [DecidableEq α] (x : List α) : cpl x x = x.length := by
  induction x with
  | nil => rfl
  | cons c cs ih => simp [cpl, ih]

theorem cpl_le_left [DecidableEq α] (u v : List α) : cpl u v ≤ u.length := by
  induction u generalizing v with
  | nil => cases v <;> simp [cpl]
  | cons c cs ih =>
    cases v with
    | nil => simp [cpl]
    | cons d ds =>
      simp only [cpl, List.length_cons]
      split
      · exact Nat.succ_le_succ (ih ds)
      · exact Nat.zero_le _

theorem flmCand_le [DecidableEq α] (a b : List α) (ahi bhi i j : Nat) :
    flmCand a b ahi bhi i j ≤ ahi := by
  calc flmCand a b ahi bhi i j ≤ ((a.take ahi).drop i).length := cpl_le_left _ _
    _ ≤ (a.take ahi).length := by simp
    _ ≤ ahi := by simp

theorem flmInner_stable [DecidableEq α] (a b : List α) (ahi bhi i : Nat)
    (best : Nat × Nat × Nat) (js : List Nat) (h : ahi ≤ best.2.2) :
    flmInner a b ahi bhi i best js = best := by
  induction js with
  | nil => rfl
  | cons j js ih =>
    unfold flmInner
    simp only [List.foldl_cons]
    rw [if_neg (by have := flmCand_le a b ahi bhi i j; omega)]
    exact ih

theorem findLongestMatch_self [DecidableEq α] (x : List α) (m : Nat)
    (hm : x.length = m + 1) :
    findLongestMatch x x 0 x.length 0 x.length = (0, 0, x.length) := by
  have hrange : List.range' 0 (m + 1) = 0 :: List.range' 1 m := rfl
  unfold findLongestMatch
  rw [hm]
  simp only [Nat.sub_zero, hrange, List.foldl_cons]
  have hfirst :
      flmInner x x (m + 1) (m + 1) 0 (0, 0, 0) (0 :: List.range' 1 m) =
        (0, 0, m + 1) := by
    unfold flmInner
    simp only [List.foldl_cons]
    have hcand : flmCand x x (m + 1) (m + 1) 0 0 = m + 1 := by
      unfold flmCand
      rw [← hm, List.take_length, List.drop_zero, cpl_self, hm]
    rw [hcand, if_pos (by simp)]
    exact flmInner_stable x x (m + 1) (m + 1) 0 (0, 0, m + 1)
      (List.range' 1 m) (by simp)
  rw [hfirst]
  have hstable : ∀ is : List Nat,
      is.foldl
        (fun bst i =>
          flmInner x x (m + 1) (m + 1) i bst (0 :: List.range' 1 m))
        (0, 0, m + 1) = (0, 0, m + 1) := by
    intro is
    induction is with
    | nil => rfl
    | cons i is ih =>
      simp only [List.foldl_cons]
      rw [flmInner_stable x x (m + 1) (m + 1) i (0, 0, m + 1) _ (by simp)]
      exact ih
  exact hstable _

theorem mtBlocksAux_nil_interval [DecidableEq α] (a b : List α)
    (fuel alo blo bhi : Nat) : mtBlocksAux a b fuel alo alo blo bhi = [] := by
  cases fuel with
  | zero => rfl
  | succ f =>
    unfold mtBlocksAux
    have h : findLongestMatch a b alo alo blo bhi = (alo, blo, 0) := by
      unfold findLongestMatch
      simp
    rw [h]
    simp

theorem matchingBlocksOf_self [DecidableEq α] (x : List α) (m : Nat)
    (hx : x.length = m + 1) :
    matchingBlocksOf x x = [(0, 0, m + 1)] := by
  have hf := findLongestMatch_self x m hx
  rw [hx] at hf
  unfold matchingBlocksOf
  rw [hx]
  unfold mtBlocksAux
  rw [hf]
  simp only
  rw [if_neg (by simp)]
  simp only [Nat.zero_add]
  rw [mtBlocksAux_nil_interval x x _ 0 0 0,
    mtBlocksAux_nil_interval x x _ (m + 1) (m + 1) (m + 1)]
  rfl

theorem matchedTotal_self [DecidableEq α] (x : List α) :
    matchedTotal x x = x.length := by
  cases hx : x.length with
  | zero =>
    unfold matchedTotal matchingBlocksOf
    rw [hx]
    rw [mtBlocksAux_nil_interval x x 1 0 0 0]
    rfl
  | succ m =>
    unfold matchedTotal
    rw [matchingBlocksOf_self x m hx]
    simp [hx]

theorem ratioQ_self [DecidableEq α] (x : List α) : ratioQ x x = 1 := by
  unfold ratioQ
  rcases Nat.eq_zero_or_pos x.length with h | h
  · rw [if_pos (by simp [h])]
  · have hne : ((x.length : ℚ) + (x.length : ℚ)) ≠ 0 := by
      have h2 : ((x.length + x.length : ℕ) : ℚ) ≠ 0 :=
        Nat.cast_ne_zero.mpr (by omega)
      push_cast at h2
      exact h2
    rw [if_neg hne, matchedTotal_self]
    field_simp
    ring

/-! ### Data model (`models/document.py`) -/

/-- `DocumentMetadata`: one version of a document family. Paths and folder
names are character lists like contents. -/
structure DocumentMetadata where
  path : Str
  folder : Str
  content : Str
  line_count : Nat
  modified_time : ℚ
  deriving DecidableEq, Inhabited

/-- `ScoreBreakdown` fields (the `structure` field is renamed
`structure_score`, `structure` being a Lean keyword).  Pydantic validates
each field against `ge=0.0, le=10.0` at construction: see
`mkScoreBreakdown`. -/
structure ScoreBreakdown where
  completeness : ℚ
  recency : ℚ
  structure_score : ℚ
  citations : ℚ
  arguments : ℚ
  deriving DecidableEq, Inhabited

/-- `ScoreBreakdown.total` (a computed property). -/
def ScoreBreakdown.total (b : ScoreBreakdown) : ℚ :=
  b.completeness + b.recency + b.structure_score + b.citations + b.arguments

/-- Pydantic construction of a `ScoreBreakdown`: every field must lie in
`[0, 10]`, otherwise a `ValidationError` is raised (`none`). -/
def mkScoreBreakdown (c r s ci a : ℚ) : Option ScoreBreakdown :=
  if 0 ≤ c ∧ c ≤ 10 ∧ 0 ≤ r ∧ r ≤ 10 ∧ 0 ≤ s ∧ s ≤ 10 ∧
      0 ≤ ci ∧ ci ≤ 10 ∧ 0 ≤ a ∧ a ≤ 10 then
    some ⟨c, r, s, ci, a⟩
  else none

/-! ### Scoring engine (`core/tournament.py`, class `DocumentTournament`)

The `versions` dict is modelled as an association list in insertion order
(Python dicts preserve insertion order, and `max` over `versions.keys()`
visits keys in that order). -/

/-- Dict lookup `self.versions[version_key]` (keys are unique in a dict;
on an absent key the model returns a default where Python would raise). -/
def getVersion (versions : List (Str × DocumentMetadata)) (k : Str) :
    DocumentMetadata :=
  (((versions.find? (fun p => p.1 == k)).map Prod.snd).getD default)

/-- `round(x, 2)` — Python banker's rounding at two decimal places,
modelled exactly on rationals (the float representation error of the
actual `round` is not modelled). -/
def roundHalfEven (q : ℚ) : ℤ :=
  if q - ⌊q⌋ = 1 / 2 then (if 2 ∣ ⌊q⌋ then ⌊q⌋ else ⌊q⌋ + 1) else round q

/-- Two-decimal rounding used by `evaluate_version`. -/
def round2 (q : ℚ) : ℚ := (roundHalfEven (q * 100) : ℚ) / 100

/-- `score_completeness`. -/
def score_completeness (versions : List (Str × DocumentMetadata))
    (k : Str) : ℚ :=
  let version := getVersion versions k
  let sections := countOccs "\n##".data version.content
  let subsections := countOccs "\n###".data version.content
  let max_lines := (versions.map (fun p => p.2.line_count)).foldl max 0
  let line_score : ℚ :=
    if 0 < max_lines then (version.line_count : ℚ) / (max_lines : ℚ) * 5
    else 0
  let section_score : ℚ := min ((sections : ℚ) / 10) 1 * 3
  let subsection_score : ℚ := min ((subsections : ℚ) / 20) 1 * 2
  line_score + section_score + subsection_score

/-- `min` fold over a nonempty list, as Python `min(iterable)`. -/
def listMinQ : ℚ → List ℚ → ℚ
  | a, [] => a
  | a, t :: ts => listMinQ (min a t) ts

/-- `max` fold over a nonempty list, as Python `max(iterable)`. -/
def listMaxQ : ℚ → List ℚ → ℚ
  | a, [] => a
  | a, t :: ts => listMaxQ (max a t) ts

/-- `min(v.modified_time for v in versions.values())` (0 on an empty map,
where Python would raise; scoring is only reached with nonempty maps). -/
def oldestTime (versions : List (Str × DocumentMetadata)) : ℚ :=
  match versions.map (fun p => p.2.modified_time) with
  | [] => 0
  | t :: ts => listMinQ t ts

/-- `max(v.modified_time for v in versions.values())`. -/
def newestTime (versions : List (Str × DocumentMetadata)) : ℚ :=
  match versions.map (fun p => p.2.modified_time) with
  | [] => 0
  | t :: ts => listMaxQ t ts

/-- `score_recency`. -/
def score_recency (versions : List (Str × DocumentMetadata)) (k : Str) : ℚ :=
  let version := getVersion versions k
  let oldest := oldestTime versions
  let newest := newestTime versions
  if newest = oldest then 5
  else (version.modified_time - oldest) / (newest - oldest) * 10

/-- The four boolean checks and the sum of `score_structure`, as a function
of the version's content. -/
def structureScoreOf (content : Str) : ℚ :=
  let has_title := pyStartsWith (pyStrip content) "#".data
  let has_headers := pyContains content "##".data
  let has_lists := pyContains content "- ".data || pyContains content "* ".data
    || pyContains content "1. ".data
  let has_code_blocks := pyContains content "```".data
  (if has_title then (5 : ℚ) / 2 else 0) +
    (if has_headers then (5 : ℚ) / 2 else 0) +
    (if has_lists then (5 : ℚ) / 2 else 0) +
    (if has_code_blocks then (5 : ℚ) / 2 else 0)

/-- `score_structure`. -/
def score_structure (versions : List (Str × DocumentMetadata)) (k : Str) : ℚ :=
  structureScoreOf (getVersion versions k).content

/-- The `citation_patterns` list of `score_citations`. -/
def citation_patterns : List Str :=
  ["Matter of ".data, "v.".data, "U.S.C.".data, "C.F.R.".data,
    "INA §".data, "Form I-".data, "8 CFR".data, "8 USC".data]

/-- `sum(content.count(pattern) for pattern in citation_patterns)`. -/
def citationCount (content : Str) : Nat :=
  (citation_patterns.map (fun p => countOccs p content)).sum

/-- `score_citations` (the `or 1` guard maps a zero cohort maximum to 1). -/
def score_citations (versions : List (Str × DocumentMetadata)) (k : Str) : ℚ :=
  let c := citationCount (getVersion versions k).content
  let maxc0 := (versions.map (fun p => citationCount p.2.content)).foldl max 0
  let maxc := if maxc0 = 0 then 1 else maxc0
  min ((c : ℚ) / (maxc : ℚ)) 1 * 10

/-- The `argument_keywords` list of `score_arguments`. -/
def argument_keywords : List Str :=
  ["therefore".data, "however".data, "moreover".data, "furthermore".data,
    "consequently".data, "accordingly".data, "argument".data,
    "demonstrates".data, "establishes".data, "pursuant to".data]

/-- Keyword density of one version (`or 1` guards a zero line count). -/
def argumentDensity (v : DocumentMetadata) : ℚ :=
  let cnt := (argument_keywords.map (fun kw => countOccs kw (pyLower v.content))).sum
  let lines := if v.line_count = 0 then 1 else v.line_count
  (cnt : ℚ) / (lines : ℚ) * 100

/-- `score_arguments` (the `or 1` guard maps a zero maximum density to 1). -/
def score_arguments (versions : List (Str × DocumentMetadata)) (k : Str) : ℚ :=
  let density := argumentDensity (getVersion versions k)
  let maxd0 :=
    match versions.map (fun p => argumentDensity p.2) with
    | [] => 0
    | d :: ds => listMaxQ d ds
  let maxd := if maxd0 = 0 then 1 else maxd0
  min (density / maxd) 1 * 10

/-- `evaluate_version`: round every criterion to two decimals and build the
breakdown (pydantic validation succeeds because every score is in range). -/
def evaluate_version (versions : List (Str × DocumentMetadata)) (k : Str) :
    ScoreBreakdown :=
  { completeness := round2 (score_completeness versions k)
    recency := round2 (score_recency versions k)
    structure_score := round2 (score_structure versions k)
    citations := round2 (score_citations versions k)
    arguments := round2 (score_arguments versions k) }

/-- Python `max(keys, key=f)`: the first maximal element in iteration
order (later elements replace the running maximum only when strictly
greater). -/
def pyMaxKey (f : Str → ℚ) : Str → List Str → Str
  | best, [] => best
  | best, k :: ks => pyMaxKey f (if f best < f k then k else best) ks

/-- `DocumentTournament.run_tournament`: raises on an empty version map,
otherwise evaluates every version and returns the champion folder. -/
def run_tournament (versions : List (Str × DocumentMetadata)) :
    Except Str Str :=
  match versions with
  | [] => .error "No versions to evaluate".data
  | (k0, _) :: rest =>
    .ok (pyMaxKey (fun k => (evaluate_version versions k).total) k0
      (rest.map Prod.fst))

theorem pyMaxKey_spec (f : Str → ℚ) :
    ∀ (ks : List Str) (best : Str),
      (pyMaxKey f best ks = best ∨ pyMaxKey f best ks ∈ ks) ∧
        f best ≤ f (pyMaxKey f best ks) ∧
        ∀ k ∈ ks, f k ≤ f (pyMaxKey f best ks) := by
  intro ks
  induction ks with
  | nil => exact fun best => ⟨Or.inl rfl, le_refl _, by simp⟩
  | cons k ks ih =>
    intro best
    simp only [pyMaxKey]
    obtain ⟨hmem, hle, hall⟩ := ih (if f best < f k then k else best)
    have hb : f best ≤ f (if f best < f k then k else best) := by
      split
      · rename_i h; exact le_of_lt h
      · exact le_refl _
    have hk : f k ≤ f (if f best < f k then k else best) := by
      split
      · exact le_refl _
      · rename_i h; exact le_of_not_lt h
    refine ⟨?_, le_trans hb hle, ?_⟩
    · rcases hmem with h | h
      · rw [h]
        split
        · exact Or.inr (List.mem_cons_self _ _)
        · exact Or.inl rfl
      · exact Or.inr (List.mem_cons_of_mem _ h)
    · intro k' hk'
      rcases List.mem_cons.mp hk' with h | h
      · subst h; exact le_trans hk hle
      · exact hall k' h

/-! ### Diff extractor (`core/extractor.py`, class `UniqueContentExtractor`) -/

/-- Match of `re.match(r"^(#{lo,hi})\s+(.+)$", line)` on a newline-free
line: the leading `#` run must have length in `[lo, hi]` and be followed by
at least one whitespace and at least one further character; the title group
is everything after the greedy whitespace run, except that when the rest is
all whitespace, backtracking leaves the last whitespace character as the
title. -/
def reHeader (lo hi : Nat) (line : Str) : Option (Nat × Str) :=
  let hashes := line.takeWhile (fun c => c = '#')
  let rest := line.dropWhile (fun c => c = '#')
  if (decide (lo ≤ hashes.length) && decide (hashes.length ≤ hi) &&
      decide (2 ≤ rest.length) &&
      (match rest with | [] => false | c :: _ => pySpace c)) = true then
    let afterWs := rest.dropWhile pySpace
    some (hashes.length,
      if afterWs.isEmpty then
        match rest.getLast? with
        | some c => [c]
        | none => []
      else afterWs)
  else none

/-- `SectionData` (`content` is the joined `"\n".join(current_content)`). -/
structure SectionData where
  level : Nat
  title : Str
  content : Str
  line_start : Nat
  line_end : Nat
  deriving DecidableEq, Inhabited

/-- The scanning loop of `extract_sections`: `i` is the current line index,
`total` the total number of lines, `cur` the open section header (level,
stripped title, start line) and `curContent` its accumulated lines. -/
def extractSectionsAux (total : Nat) :
    List Str → Nat → Option (Nat × Str × Nat) → List Str →
      List SectionData → List SectionData
  | [], _, cur, curContent, acc =>
    match cur with
    | some (lv, t, st) =>
      if curContent.isEmpty then acc
      else acc ++ [⟨lv, t, joinCh curContent, st, total - 1⟩]
    | none => acc
  | l :: rest, i, cur, curContent, acc =>
    match reHeader 2 6 l with
    | some (lv, tRaw) =>
      let acc' :=
        match cur with
        | some (clv, ct, cst) => acc ++ [⟨clv, ct, joinCh curContent, cst, i - 1⟩]
        | none => acc
      extractSectionsAux total rest (i + 1) (some (lv, pyStrip tRaw, i)) [l] acc'
    | none =>
      extractSectionsAux total rest (i + 1) cur
        (if curContent.isEmpty then curContent else curContent ++ [l]) acc

/-- `extract_sections`. -/
def extract_sections (content : Str) : List SectionData :=
  let lines := splitCh content
  extractSectionsAux lines.length lines 0 none [] []

/-- `UniqueImprovement`: `type` and `value` are the literal Python strings
(`"new_section"`, `"enhanced_section"`, `"citation_enhancement"`;
`"low"`/`"medium"`/`"high"`); `lines` models the `f"{start}-{end}"` pair;
`citations` maps field name to (champion count, other count, difference). -/
structure UniqueImprovement where
  type : Str
  source_folder : Str
  value : Str
  reason : Str
  title : Option Str := none
  level : Option Nat := none
  content : Option Str := none
  lines : Option (Nat × Nat) := none
  similarity : Option ℚ := none
  additions_preview : Option Str := none
  citations : Option (List (Str × Nat × Nat × Nat)) := none
  deriving DecidableEq, Inhabited

/-- Lookup in the dict comprehension
`{s.title.lower(): s for s in champion_sections}`: later sections override
earlier ones with the same lowercase title, so the lookup finds the last
matching section. -/
def titleLookup (sections : List SectionData) (t : Str) : Option SectionData :=
  sections.reverse.find? (fun s => pyLower s.title == t)

/-- The body of the `for section in other_sections` loop of
`find_unique_sections`, producing the improvements emitted for one
non-champion section. -/
def processOther (championSections : List SectionData) (other_folder : Str)
    (s : SectionData) : List UniqueImprovement :=
  match titleLookup championSections (pyLower s.title) with
  | none =>
    [{ type := "new_section".data
       title := some s.title
       level := some s.level
       content := some s.content
       lines := some (s.line_start, s.line_end)
       source_folder := other_folder
       value := "high".data
       reason := "Section not present in champion version".data }]
  | some champion_section =>
    let similarity := ratioQ champion_section.content s.content
    if similarity < 4 / 5 then
      let added_lines := diffAddedLines (pySplitlines champion_section.content)
        (pySplitlines s.content)
      if 3 ≤ added_lines.length then
        [{ type := "enhanced_section".data
           title := some s.title
           level := some s.level
           content := some s.content
           lines := some (s.line_start, s.line_end)
           source_folder := other_folder
           value := if added_lines.length < 10 then "medium".data else "high".data
           reason := "Section has ".data ++ natStr added_lines.length ++
             " additional lines not in champion".data
           similarity := some (round2 similarity)
           additions_preview := some (joinCh (added_lines.take 5)) }]
      else []
    else []

/-- `find_unique_sections`. -/
def find_unique_sections (champion_content other_content other_folder : Str) :
    List UniqueImprovement :=
  (extract_sections other_content).flatMap
    (processOther (extract_sections champion_content) other_folder)

/-- `CitationCounts` (`total` is a computed property). -/
structure CitationCounts where
  matter_of : Nat
  usc : Nat
  cfr : Nat
  ina : Nat
  form_i : Nat
  case_citations : Nat
  deriving DecidableEq, Inhabited

/-- `CitationCounts.total`. -/
def CitationCounts.total (c : CitationCounts) : Nat :=
  c.matter_of + c.usc + c.cfr + c.ina + c.form_i + c.case_citations

/-- The `re.findall` collaborator (external `re` module): number of matches
of a regex pattern in a content string. -/
abbrev ReCount := Str → Str → Nat

/-- `analyze_citations` over the regex collaborator; the pattern strings
are the source's literal patterns (including its mojibake `ยง` where a
section sign was intended). -/
def analyze_citations (re : ReCount) (content : Str) : CitationCounts :=
  { matter_of := re "Matter of [A-Z]".data content
    usc := re "\\d+\\s+U\\.?S\\.?C\\.?".data content
    cfr := re "\\d+\\s+C\\.?F\\.?R\\.?".data content
    ina := re "INA\\s*ยง\\s*\\d+".data content
    form_i := re "Form I-\\d+".data content
    case_citations := re "\\d+\\s+F\\.\\d+d\\s+\\d+".data content }

/-- `compare_citations`: per-field deltas where the other version strictly
exceeds the champion, in field declaration order; `none` when no field
improves. -/
def compare_citations (re : ReCount) (champion_content other_content : Str) :
    Option (List (Str × Nat × Nat × Nat)) :=
  let c := analyze_citations re champion_content
  let o := analyze_citations re other_content
  let fields : List (Str × Nat × Nat) :=
    [("matter_of".data, c.matter_of, o.matter_of),
      ("usc".data, c.usc, o.usc),
      ("cfr".data, c.cfr, o.cfr),
      ("ina".data, c.ina, o.ina),
      ("form_i".data, c.form_i, o.form_i),
      ("case_citations".data, c.case_citations, o.case_citations)]
  let improvements := fields.filterMap
    (fun f => if f.2.1 < f.2.2 then some (f.1, f.2.1, f.2.2, f.2.2 - f.2.1) else none)
  if improvements.isEmpty then none else some improvements

/-- `TournamentResult`. -/
structure TournamentResult where
  filename : Str
  champion_folder : Str
  champion_path : Str
  champion_score : ℚ
  champion_breakdown : ScoreBreakdown
  all_scores : List (Str × ScoreBreakdown)
  version_count : Nat
  runners_up : List (Str × ℚ)
  deriving DecidableEq, Inhabited

/-- The document repository collaborator: `read_document` yields the
content, or `none` for a missing, unreadable or undecodable file
(`document_exists` is `isSome`). -/
abbrev Repo := Str → Option Str

/-- The per-document extraction output dict of `extract_for_document`. -/
structure ExtractOutput where
  champion : Str
  champion_path : Str
  champion_score : ℚ
  improvements : List UniqueImprovement
  improvement_count : Nat
  deriving DecidableEq, Inhabited

/-- `extract_for_document`: a champion read failure raises (error); a
missing or unreadable non-champion version is skipped; returns `none`
when no improvements were found. -/
def extract_for_document (re : ReCount) (repo : Repo) (tr : TournamentResult) :
    Except Str (Option ExtractOutput) :=
  match repo tr.champion_path with
  | none => .error ("Failed to read champion document: ".data ++ tr.champion_path)
  | some champion_content =>
    let improvements := tr.all_scores.flatMap (fun p =>
      if p.1 == tr.champion_folder then []
      else
        match repo (replaceAll tr.champion_folder p.1 tr.champion_path) with
        | none => []
        | some other_content =>
          find_unique_sections champion_content other_content p.1 ++
            (match compare_citations re champion_content other_content with
             | some cits =>
               [{ type := "citation_enhancement".data
                  source_folder := p.1
                  citations := some cits
                  value := "high".data
                  reason := "Contains additional legal citations not in champion".data }]
             | none => []))
    if improvements.isEmpty then .ok none
    else
      .ok (some
        { champion := tr.champion_folder
          champion_path := tr.champion_path
          champion_score := tr.champion_score
          improvements := improvements
          improvement_count := improvements.length })

/-- Python string `≤` (lexicographic on code points). -/
def strLe : Str → Str → Bool
  | [], _ => true
  | _ :: _, [] => false
  | a :: as, b :: bs => if a < b then true else if b < a then false else strLe as bs

/-- Insertion step of a stable insertion sort. -/
def insertSortedBy (le : α → α → Bool) (x : α) : List α → List α
  | [] => [x]
  | y :: ys => if le x y then x :: y :: ys else y :: insertSortedBy le x ys

/-- Stable insertion sort, modelling Python `sorted`. -/
def sortBy (le : α → α → Bool) (l : List α) : List α :=
  l.foldr (insertSortedBy le) []

/-- `run_extraction`: processes families in sorted filename order; a
champion read failure propagates out of the loop uncaught. -/
def run_extraction (re : ReCount) (repo : Repo)
    (tournament_results : List (Str × TournamentResult)) :
    Except Str (List (Str × ExtractOutput)) :=
  if tournament_results.isEmpty then
    .error "No tournament results to process".data
  else
    (sortBy (fun p q => strLe p.1 q.1) tournament_results).foldlM
      (fun acc p => do
        match ← extract_for_document re repo p.2 with
        | some out => pure (acc ++ [(p.1, out)])
        | none => pure acc)
      []

/-! ### Configuration (`config/settings.py`, fields consumed by the core) -/

/-- `IntegrationSettings` fields read by the integrator and verifier. -/
structure IntegrationSettings where
  add_evolution_metadata : Bool
  preserve_source_attribution : Bool
  integrate_citations : Bool
  skip_citation_enhancement : Bool
  deriving DecidableEq, Inhabited

/-- `VerificationSettings`. -/
structure VerificationSettings where
  check_markdown_formatting : Bool
  check_section_numbering : Bool
  check_no_duplication : Bool
  check_document_navigability : Bool
  max_consecutive_blank_lines : Nat
  deriving DecidableEq, Inhabited

/-- The global `settings` object (the parts the core reads). -/
structure Settings where
  integration : IntegrationSettings
  verification : VerificationSettings
  deriving DecidableEq, Inhabited

/-! ### Content integrator (`core/integrator.py`, class `DocumentIntegrator`) -/

/-- Python truthiness of an optional string (`None` and `""` are falsy). -/
def pyTruthyStr : Option Str → Bool
  | none => false
  | some [] => false
  | some (_ :: _) => true

/-- A footer marker line (`---` or `**Document Evolution`). -/
def isFooterLine (l : Str) : Bool :=
  pyStartsWith l "---".data || pyStartsWith l "**Document Evolution".data

/-- Index of the last element satisfying `p` (the backward
`for i in range(len(lines) - 1, -1, -1)` scan finds it first). -/
def lastIdxWhere (p : α → Bool) : List α → Option Nat
  | [] => none
  | x :: xs =>
    match lastIdxWhere p xs with
    | some j => some (j + 1)
    | none => if p x then some 0 else none

/-- Index of the first element satisfying `p` (a forward `for` scan that
returns inside the loop). -/
def firstIdxWhere (p : α → Bool) : List α → Option Nat
  | [] => none
  | x :: xs => if p x then some 0 else (firstIdxWhere p xs).map (· + 1)

/-- `find_insertion_point`. -/
def find_insertion_point (champion_content : Str) (imp : UniqueImprovement) :
    Nat :=
  let lines := splitCh champion_content
  if imp.type == "new_section".data then
    match lastIdxWhere isFooterLine lines with
    | some i => i
    | none => lines.length
  else if imp.type == "enhanced_section".data && pyTruthyStr imp.title then
    let section_title := pyLower (imp.title.getD [])
    match firstIdxWhere (fun l =>
        pyStartsWith l "##".data && pyContains (pyLower l) section_title) lines with
    | some i =>
      match firstIdxWhere (fun l => pyStartsWith l "##".data) (lines.drop (i + 1)) with
      | some j => i + 1 + j
      | none => lines.length
    | none => lines.length
  else lines.length

/-- `format_improvement`: the formatted block as a single string
(`""`, i.e. `[]`, for citation enhancements, which are deferred). -/
def format_improvement (cfg : Settings) (imp : UniqueImprovement)
    (source_folder : Str) : Str :=
  if imp.type == "citation_enhancement".data then []
  else
    let f0 : List Str :=
      [[], "## ".data ++ (match imp.title with | some t => t | none => "None".data)]
    let f1 :=
      if cfg.integration.preserve_source_attribution then
        f0 ++ ["*[Integrated from ".data ++ source_folder ++ "]*".data, []]
      else f0
    let f2 :=
      if pyTruthyStr imp.content then
        f1 ++ (splitCh (imp.content.getD [])).drop 1
      else f1
    joinCh (f2 ++ [[]])

/-- The `re.findall` collaborator for citation sentence extraction
(pattern, content ↦ list of matched substrings in order). -/
abbrev ReFindAll := Str → Str → List Str

/-- The `patterns` table of `extract_citations_from_improvement`
(source literals, mojibake included). -/
def citExtractPatterns : List (Str × Str) :=
  [("matter_of".data, "Matter of [A-Z][^.]*\\.".data),
    ("usc".data, "\\d+\\s+U\\.?S\\.?C\\.?\\s*ยง?\\s*\\d+[^.]*\\.".data),
    ("cfr".data, "\\d+\\s+C\\.?F\\.?R\\.?\\s*ยง?\\s*\\d+[^.]*\\.".data),
    ("ina".data, "INA\\s*ยง\\s*\\d+[^.]*\\.".data),
    ("form_i".data, "Form I-\\d+[^.]*\\.".data),
    ("case_citations".data, "\\d+\\s+F\\.\\d+d\\s+\\d+[^.]*\\.".data)]

/-- `extract_citations_from_improvement`: per recorded category, take up to
`difference` regex matches from the source document. -/
def extract_citations_from_improvement (findAll : ReFindAll)
    (imp : UniqueImprovement) (other_content : Str) : List Str :=
  if imp.type == "citation_enhancement".data then
    match imp.citations with
    | none => []
    | some cits =>
      cits.flatMap (fun c =>
        match citExtractPatterns.find? (fun p => p.1 == c.1) with
        | some p => (findAll p.2 other_content).take c.2.2.2
        | none => [])
  else []

/-- `integrate_citations`: build the `## Additional Legal Citations` block
and insert it before the last footer marker (or append). -/
def integrate_citations (cfg : Settings) (champion_content : Str)
    (citations : List Str) (source_folder : Str) : Str :=
  if citations.isEmpty || !cfg.integration.integrate_citations then
    champion_content
  else
    let c0 : List Str := [[], "## Additional Legal Citations".data]
    let c1 :=
      if cfg.integration.preserve_source_attribution then
        c0 ++ ["*[Integrated from ".data ++ source_folder ++ "]*".data]
      else c0
    let c2 := c1 ++ [[]] ++ citations.map (fun c => "- ".data ++ pyStrip c) ++ [[]]
    let lines := splitCh champion_content
    let ip :=
      match lastIdxWhere isFooterLine lines with
      | some i => i
      | none => lines.length
    joinCh (insertAt ip (joinCh c2) lines)

/-- `add_evolution_metadata` (`today` models `datetime.now().strftime`). -/
def add_evolution_metadata (cfg : Settings) (today : Str)
    (original_content integrated_content : Str)
    (improvements : List UniqueImprovement) : Str :=
  if !cfg.integration.add_evolution_metadata then integrated_content
  else
    let original_lines := countOccs "\n".data original_content + 1
    let integrated_lines := countOccs "\n".data integrated_content + 1
    let added_lines : Int := (integrated_lines : Int) - (original_lines : Int)
    let source_folders := sortBy strLe (improvements.map (fun i => i.source_folder)).dedup
    let m0 : List Str :=
      [[], "---".data, [], "## Document Evolution".data, [],
        "**Original Champion Lines**: ".data ++ natStr original_lines,
        "**Integrated Lines**: ".data ++ natStr integrated_lines ++
          " (+".data ++ intStr added_lines ++ " lines)".data,
        "**Improvements Integrated**: ".data ++ natStr improvements.length,
        [], "**Sources**:".data]
    let m1 := m0 ++ source_folders.map (fun f =>
      "- ".data ++ f ++ ": ".data ++
        natStr ((improvements.filter (fun imp => imp.source_folder == f)).length) ++
        " improvements".data)
    let m2 := m1 ++ [[], "**Last Updated**: ".data ++ today,
      "**Status**: COMPREHENSIVE MASTER DOCUMENT".data, []]
    integrated_content ++ joinCh m2

/-- `IntegrationResult` (`source_folders` comes from a Python `set`, whose
iteration order is unspecified; the model keeps first occurrences). -/
structure IntegrationResult where
  filename : Str
  champion_folder : Str
  champion_path : Str
  original_line_count : Nat
  integrated_line_count : Nat
  added_lines : Int
  improvements_integrated : Nat
  source_folders : List Str
  integrated_content : Str
  deriving DecidableEq, Inhabited

/-- `IntegrationResult.growth_percentage`. -/
def IntegrationResult.growth_percentage (r : IntegrationResult) : ℚ :=
  if r.original_line_count = 0 then 0
  else (r.added_lines : ℚ) / (r.original_line_count : ℚ) * 100

/-- `sorted(improvements, key=lambda x: 0 if x.type == "enhanced_section"
else 1)`: Python's stable sort on a two-valued key is exactly this stable
partition. -/
def sorted_improvements (imps : List UniqueImprovement) :
    List UniqueImprovement :=
  imps.filter (fun x => x.type == "enhanced_section".data) ++
    imps.filter (fun x => !(x.type == "enhanced_section".data))

/-- State of the first integration pass: the progressively rewritten text,
the number of improvements integrated, and the deferred citation
enhancements. -/
structure IntegState where
  content : Str
  count : Nat
  citImps : List UniqueImprovement

/-- One iteration of the first pass of `integrate_document`. -/
def integrateStep (cfg : Settings) (st : IntegState)
    (imp : UniqueImprovement) : IntegState :=
  if imp.type == "citation_enhancement".data then
    { st with citImps := st.citImps ++ [imp] }
  else
    let ip := find_insertion_point st.content imp
    let block := format_improvement cfg imp imp.source_folder
    if block.isEmpty then st
    else
      { st with
        content := joinCh (insertAt ip block (splitCh st.content))
        count := st.count + 1 }

/-- One iteration of the second (citation) pass of `integrate_document`:
read failures of the source document are caught and skipped. -/
def citationStep (cfg : Settings) (findAll : ReFindAll) (repo : Repo)
    (champion_path champion_folder : Str) (st : Str × Nat)
    (imp : UniqueImprovement) : Str × Nat :=
  if cfg.integration.skip_citation_enhancement then st
  else
    match repo (replaceAll champion_folder imp.source_folder champion_path) with
    | none => st
    | some source_content =>
      let citations := extract_citations_from_improvement findAll imp source_content
      if citations.isEmpty then st
      else (integrate_citations cfg st.1 citations imp.source_folder, st.2 + 1)

/-- `integrate_document`: error on champion read failure, `none` when no
improvement was integrated, otherwise the `IntegrationResult`. -/
def integrate_document (cfg : Settings) (findAll : ReFindAll) (repo : Repo)
    (today filename : Str) (d : ExtractOutput) :
    Except Str (Option IntegrationResult) :=
  match repo d.champion_path with
  | none => .error ("Failed to load champion: ".data ++ d.champion_path)
  | some champion_content =>
    let original_lines := countOccs "\n".data champion_content + 1
    let st1 := (sorted_improvements d.improvements).foldl (integrateStep cfg)
      ⟨champion_content, 0, []⟩
    let st2 := st1.citImps.foldl
      (citationStep cfg findAll repo d.champion_path d.champion)
      (st1.content, st1.count)
    if st2.2 = 0 then .ok none
    else
      let integrated_content :=
        add_evolution_metadata cfg today champion_content st2.1 d.improvements
      let integrated_lines := countOccs "\n".data integrated_content + 1
      .ok (some
        { filename := filename
          champion_folder := d.champion
          champion_path := d.champion_path
          original_line_count := original_lines
          integrated_line_count := integrated_lines
          added_lines := (integrated_lines : Int) - (original_lines : Int)
          improvements_integrated := st2.2
          source_folders := (d.improvements.map (fun i => i.source_folder)).dedup
          integrated_content := integrated_content })

/-! ### Quality verifier (`core/verifier.py`, class `DocumentVerifier`) -/

/-- `VerificationIssue`. -/
structure VerificationIssue where
  type : Str
  severity : Str
  message : Str
  line_number : Option Nat := none
  deriving DecidableEq, Inhabited

/-- `VerificationResult`. -/
structure VerificationResult where
  filename : Str
  filepath : Str
  line_count : Nat
  issues : List VerificationIssue
  passed : Bool
  deriving DecidableEq, Inhabited

/-- The blank-run scan of `verify_markdown_formatting`: `i` is the
1-based line number, `blank_count` the current run length. -/
def blankIssuesAux (maxB : Nat) : List Str → Nat → Nat → List VerificationIssue
  | [], _, _ => []
  | l :: rest, i, blank_count =>
    if pyStrip l == ([] : Str) then
      let bc := blank_count + 1
      (if maxB < bc then
        [{ type := "formatting".data, severity := "low".data
           message := "Excessive blank lines (".data ++ natStr bc ++
             " consecutive)".data
           line_number := some i }]
      else []) ++ blankIssuesAux maxB rest (i + 1) bc
    else blankIssuesAux maxB rest (i + 1) 0

/-- `verify_markdown_formatting`. -/
def verify_markdown_formatting (cfg : Settings) (content : Str) :
    List VerificationIssue :=
  if !cfg.verification.check_markdown_formatting then []
  else
    let lines := splitCh content
    let headerIssues := lines.enum.filterMap (fun p =>
      if pyStartsWith p.2 "#".data && (reHeader 1 6 p.2).isNone then
        some { type := "formatting".data, severity := "medium".data
               message := "Malformed header: ".data ++ p.2.take 50
               line_number := some (p.1 + 1) }
      else none)
    let blankIssues :=
      blankIssuesAux cfg.verification.max_consecutive_blank_lines lines 1 0
    let evolutionIssues :=
      if cfg.integration.add_evolution_metadata then
        if !pyContains content "## Document Evolution".data then
          [{ type := "formatting".data, severity := "medium".data
             message := "Missing Document Evolution metadata section".data }]
        else []
      else []
    headerIssues ++ blankIssues ++ evolutionIssues

/-- The hierarchy walk of `verify_section_numbering` over
(line number, level) pairs, starting from `prev_level = 1`. -/
def numberingAux : List (Nat × Nat) → Nat → List VerificationIssue
  | [], _ => []
  | s :: rest, prev =>
    (if prev + 1 < s.2 then
      [{ type := "numbering".data, severity := "low".data
         message := "Section level jump from ".data ++ natStr prev ++
           " to ".data ++ natStr s.2
         line_number := some s.1 }]
    else []) ++ numberingAux rest s.2

/-- `verify_section_numbering`. -/
def verify_section_numbering (cfg : Settings) (content : Str) :
    List VerificationIssue :=
  if !cfg.verification.check_section_numbering then []
  else
    let lines := splitCh content
    let sections := lines.enum.filterMap (fun p =>
      (reHeader 2 6 p.2).map (fun h => (p.1 + 1, h.1)))
    numberingAux sections 1

/-- The duplicate-title scan of `verify_no_duplication` over enumerated
lines, carrying the titles seen so far. -/
def dupAux : List (Nat × Str) → List Str → List VerificationIssue
  | [], _ => []
  | p :: rest, seen =>
    if pyStartsWith p.2 "##".data then
      let title := pyStrip (p.2.drop 2)
      (if seen.any (fun t => t == title) then
        [{ type := "duplication".data, severity := "high".data
           message := "Duplicate section title: ".data ++ title
           line_number := some (p.1 + 1) }]
      else []) ++ dupAux rest (seen ++ [title])
    else dupAux rest seen

/-- `verify_no_duplication`. -/
def verify_no_duplication (cfg : Settings) (content : Str) :
    List VerificationIssue :=
  if !cfg.verification.check_no_duplication then []
  else dupAux (splitCh content).enum []

/-- `verify_document_navigability`. -/
def verify_document_navigability (cfg : Settings) (content : Str) :
    List VerificationIssue :=
  if !cfg.verification.check_document_navigability then []
  else if !pyContains content "## ".data then
    [{ type := "navigation".data, severity := "medium".data
       message := "Document may not be navigable (no clear sections)".data }]
  else []

/-- `verify_document`: read the document (missing or unreadable raises)
and aggregate the four checks; `passed` iff no issues. -/
def verify_document (cfg : Settings) (repo : Repo)
    (filename filepath : Str) : Except Str VerificationResult :=
  match repo filepath with
  | none => .error ("Document not found: ".data ++ filepath)
  | some content =>
    let all_issues :=
      verify_markdown_formatting cfg content ++
        verify_section_numbering cfg content ++
        verify_no_duplication cfg content ++
        verify_document_navigability cfg content
    .ok { filename := filename
          filepath := filepath
          line_count := countOccs "\n".data content + 1
          issues := all_issues
          passed := all_issues.isEmpty }

/-! ### Claim theorems -/

/-- C6: every pydantic-validated `ScoreBreakdown` has its five sub-scores in
`[0, 10]`, its `total` equal to their sum, and hence `0 ≤ total ≤ 50`.
(The model is purely functional, matching the code, which never mutates a
breakdown after construction.) -/
theorem score_breakdown_invariants (c r s ci a : ℚ) (b : ScoreBreakdown)
    (h : mkScoreBreakdown c r s ci a = some b) :
    (0 ≤ b.completeness ∧ b.completeness ≤ 10) ∧
      (0 ≤ b.recency ∧ b.recency ≤ 10) ∧
      (0 ≤ b.structure_score ∧ b.structure_score ≤ 10) ∧
      (0 ≤ b.citations ∧ b.citations ≤ 10) ∧
      (0 ≤ b.arguments ∧ b.arguments ≤ 10) ∧
      b.total = b.completeness + b.recency + b.structure_score +
        b.citations + b.arguments ∧
      0 ≤ b.total ∧ b.total ≤ 50 := by
  unfold mkScoreBreakdown at h
  split at h
  · rename_i hcond
    injection h with h
    subst h
    obtain ⟨h1, h2, h3, h4, h5, h6, h7, h8, h9, h10⟩ := hcond
    refine ⟨⟨h1, h2⟩, ⟨h3, h4⟩, ⟨h5, h6⟩, ⟨h7, h8⟩, ⟨h9, h10⟩, rfl, ?_, ?_⟩
    · unfold ScoreBreakdown.total
      dsimp only
      linarith
    · unfold ScoreBreakdown.total
      dsimp only
      linarith
  · exact absurd h (by simp)

/-- Witness for C6 at a concrete breakdown. -/
theorem score_breakdown_invariants_witness :
    mkScoreBreakdown 1 2 3 4 5 = some ⟨1, 2, 3, 4, 5⟩ ∧
      ((0 ≤ (⟨1, 2, 3, 4, 5⟩ : ScoreBreakdown).completeness ∧
          (⟨1, 2, 3, 4, 5⟩ : ScoreBreakdown).completeness ≤ 10) ∧
        (0 ≤ (⟨1, 2, 3, 4, 5⟩ : ScoreBreakdown).recency ∧
          (⟨1, 2, 3, 4, 5⟩ : ScoreBreakdown).recency ≤ 10) ∧
        (0 ≤ (⟨1, 2, 3, 4, 5⟩ : ScoreBreakdown).structure_score ∧
          (⟨1, 2, 3, 4, 5⟩ : ScoreBreakdown).structure_score ≤ 10) ∧
        (0 ≤ (⟨1, 2, 3, 4, 5⟩ : ScoreBreakdown).citations ∧
          (⟨1, 2, 3, 4, 5⟩ : ScoreBreakdown).citations ≤ 10) ∧
        (0 ≤ (⟨1, 2, 3, 4, 5⟩ : ScoreBreakdown).arguments ∧
          (⟨1, 2, 3, 4, 5⟩ : ScoreBreakdown).arguments ≤ 10) ∧
        (⟨1, 2, 3, 4, 5⟩ : ScoreBreakdown).total =
          (⟨1, 2, 3, 4, 5⟩ : ScoreBreakdown).completeness +
            (⟨1, 2, 3, 4, 5⟩ : ScoreBreakdown).recency +
            (⟨1, 2, 3, 4, 5⟩ : ScoreBreakdown).structure_score +
            (⟨1, 2, 3, 4, 5⟩ : ScoreBreakdown).citations +
            (⟨1, 2, 3, 4, 5⟩ : ScoreBreakdown).arguments ∧
        0 ≤ (⟨1, 2, 3, 4, 5⟩ : ScoreBreakdown).total ∧
        (⟨1, 2, 3, 4, 5⟩ : ScoreBreakdown).total ≤ 50) :=
  ⟨by decide, score_breakdown_invariants 1 2 3 4 5 ⟨1, 2, 3, 4, 5⟩ (by decide)⟩

/-- Number of satisfied checks among the four structure checks as the spec
words them: the document opens with a level-1 header (after stripping, a
`#` run of length exactly one); it contains a level-2..6 header line; it
contains a bulleted or numbered list marker; it contains a fenced code
block. -/
def structureChecksSpec (content : Str) : Nat :=
  (if pyStartsWith (pyStrip content) "#".data ∧
      ¬ pyStartsWith (pyStrip content) "##".data then 1 else 0) +
    (if (splitCh content).any (fun l => (reHeader 2 6 l).isSome) then 1 else 0) +
    (if pyContains content "- ".data ∨ pyContains content "* ".data ∨
        pyContains content "1. ".data then 1 else 0) +
    (if pyContains content "```".data then 1 else 0)

/-- Number of satisfied checks among the four substring tests the code
actually performs in `score_structure`. -/
def structureChecksCode (content : Str) : Nat :=
  (if pyStartsWith (pyStrip content) "#".data then 1 else 0) +
    (if pyContains content "##".data then 1 else 0) +
    (if pyContains content "- ".data ∨ pyContains content "* ".data ∨
        pyContains content "1. ".data then 1 else 0) +
    (if pyContains content "```".data then 1 else 0)

/-- C8 counterexample: on the document `"## A"` the structure score is 5.0
(the code's first check is `content.strip().startswith("#")`, satisfied by
a level-2 header), but only one of the four spec-worded checks holds
(it does not open with a level-1 header), so the claimed
`2.5 × #checks` with the spec's checks would be 2.5. -/
theorem structure_score_spec_counterexample :
    structureScoreOf "## A".data ≠
      5 / 2 * (structureChecksSpec "## A".data : ℚ) := by
  have hspec : structureChecksSpec "## A".data = 1 := by decide
  rw [hspec]
  simp only [structureScoreOf,
    show pyStartsWith (pyStrip "## A".data) "#".data = true from by decide,
    show pyContains "## A".data "##".data = true from by decide,
    show pyContains "## A".data "- ".data = false from by decide,
    show pyContains "## A".data "* ".data = false from by decide,
    show pyContains "## A".data "1. ".data = false from by decide,
    show pyContains "## A".data "```".data = false from by decide]
  norm_num

/-- C8 (amended): the structure score equals 2.5 times the number of
satisfied checks among the four checks as the code performs them: the
stripped document starts with `#`; `##` occurs as a substring; a list
marker `- `, `* ` or `1. ` occurs; and a fence ` ``` ` occurs. -/
theorem structure_score_eq_code_checks (content : Str) :
    structureScoreOf content = 5 / 2 * (structureChecksCode content : ℚ) := by
  unfold structureScoreOf structureChecksCode
  rcases Bool.eq_false_or_eq_true (pyStartsWith (pyStrip content) "#".data) with h1 | h1 <;>
  rcases Bool.eq_false_or_eq_true (pyContains content "##".data) with h2 | h2 <;>
  rcases Bool.eq_false_or_eq_true (pyContains content "- ".data) with h3 | h3 <;>
  rcases Bool.eq_false_or_eq_true (pyContains content "* ".data) with h4 | h4 <;>
  rcases Bool.eq_false_or_eq_true (pyContains content "1. ".data) with h5 | h5 <;>
  rcases Bool.eq_false_or_eq_true (pyContains content "```".data) with h6 | h6 <;>
    simp [h1, h2, h3, h4, h5, h6] <;> norm_num

theorem lastIdxWhere_lt_length (p : α → Bool) (l : List α) (j : Nat)
    (h : lastIdxWhere p l = some j) : j < l.length := by
  induction l generalizing j with
  | nil => simp [lastIdxWhere] at h
  | cons x xs ih =>
    simp only [lastIdxWhere] at h
    split at h
    · rename_i i hx
      injection h with h
      subst h
      exact Nat.succ_lt_succ (ih i hx)
    · split at h
      · injection h with h
        subst h
        simp
      · exact absurd h (by simp)

theorem lastIdxWhere_eq_none (p : α → Bool) (l : List α)
    (h : ∀ x ∈ l, p x = false) : lastIdxWhere p l = none := by
  induction l with
  | nil => rfl
  | cons x xs ih =>
    simp only [lastIdxWhere]
    rw [ih (fun y hy => h y (List.mem_cons_of_mem x hy))]
    simp [h x (List.mem_cons_self x xs)]

theorem firstIdxWhere_lt_length (p : α → Bool) (l : List α) (j : Nat)
    (h : firstIdxWhere p l = some j) : j < l.length := by
  induction l generalizing j with
  | nil => simp [firstIdxWhere] at h
  | cons x xs ih =>
    simp only [firstIdxWhere] at h
    split at h
    · injection h with h
      subst h
      simp
    · cases hx : firstIdxWhere p xs with
      | some i =>
        rw [hx] at h
        injection h with h
        subst h
        exact Nat.succ_lt_succ (ih i hx)
      | none => rw [hx] at h; simp at h

theorem firstIdxWhere_eq_none (p : α → Bool) (l : List α)
    (h : ∀ x ∈ l, p x = false) : firstIdxWhere p l = none := by
  induction l with
  | nil => rfl
  | cons x xs ih =>
    simp only [firstIdxWhere]
    rw [if_neg (by simp [h x (List.mem_cons_self x xs)])]
    rw [ih (fun y hy => h y (List.mem_cons_of_mem x hy))]
    rfl

/-- C10: `find_insertion_point` always returns an index between 0 and the
number of lines of the text (inclusive), so the subsequent list insertion
is in range; when a `new_section` finds no footer marker line, and when an
`enhanced_section` finds no matching level-2+ header, it returns the
end-of-document index. -/
theorem find_insertion_point_bounds (content : Str) (imp : UniqueImprovement) :
    find_insertion_point content imp ≤ (splitCh content).length ∧
      (imp.type = "new_section".data →
        (∀ l ∈ splitCh content, isFooterLine l = false) →
        find_insertion_point content imp = (splitCh content).length) ∧
      (imp.type = "enhanced_section".data →
        (∀ l ∈ splitCh content, ∀ t, imp.title = some t →
          ¬(pyStartsWith l "##".data = true ∧
            pyContains (pyLower l) (pyLower t) = true)) →
        find_insertion_point content imp = (splitCh content).length) := by
  refine ⟨?_, ?_, ?_⟩
  · simp only [find_insertion_point]
    split
    · split
      · rename_i i hf
        exact le_of_lt (lastIdxWhere_lt_length _ _ _ hf)
      · exact le_refl _
    · split
      · split
        · rename_i i hi
          split
          · rename_i j hj
            have h2 := firstIdxWhere_lt_length _ _ _ hj
            rw [List.length_drop] at h2
            omega
          · exact le_refl _
        · exact le_refl _
      · exact le_refl _
  · intro hty hfoot
    simp only [find_insertion_point]
    rw [if_pos (by simp [hty])]
    rw [lastIdxWhere_eq_none _ _ hfoot]
  · intro hty hmatch
    simp only [find_insertion_point]
    rw [if_neg (by simp [hty])]
    by_cases ht : pyTruthyStr imp.title
    · rw [if_pos (by simp [hty, ht])]
      have htit : imp.title = some (imp.title.getD []) := by
        cases h : imp.title with
        | none => rw [h] at ht; simp [pyTruthyStr] at ht
        | some t => simp [h]
      have hnone : firstIdxWhere (fun l =>
          pyStartsWith l "##".data &&
            pyContains (pyLower l) (pyLower (imp.title.getD []))) (splitCh content) = none := by
        refine firstIdxWhere_eq_none _ _ (fun l hl => ?_)
        have hm := hmatch l hl (imp.title.getD []) htit
        rcases Bool.eq_false_or_eq_true (pyStartsWith l "##".data) with hb | hb
        · rcases Bool.eq_false_or_eq_true
            (pyContains (pyLower l) (pyLower (imp.title.getD []))) with hc | hc
          · exact absurd ⟨hb, hc⟩ hm
          · simp [hb, hc]
        · simp [hb]
      rw [hnone]
    · rw [if_neg (by simp [ht])]

/-- Witness for C10 on a concrete footer-free document and `new_section`
improvement. -/
theorem find_insertion_point_bounds_witness :
    find_insertion_point "# T\na".data
        { type := "new_section".data, source_folder := [], value := [],
          reason := [] } ≤ (splitCh "# T\na".data).length ∧
      find_insertion_point "# T\na".data
        { type := "new_section".data, source_folder := [], value := [],
          reason := [] } = (splitCh "# T\na".data).length := by
  have h := find_insertion_point_bounds "# T\na".data
    { type := "new_section".data, source_folder := [], value := [], reason := [] }
  exact ⟨h.1, h.2.1 rfl (by decide)⟩

/-- C2: a successful `run_tournament` returns a key of the input version
map, and the rounded `ScoreBreakdown` total of that key dominates the total
of every version in the map. -/
theorem run_tournament_champion (versions : List (Str × DocumentMetadata))
    (champ : Str) (h : run_tournament versions = .ok champ) :
    champ ∈ versions.map Prod.fst ∧
      ∀ k ∈ versions.map Prod.fst,
        (evaluate_version versions k).total ≤
          (evaluate_version versions champ).total := by
  cases versions with
  | nil => exact absurd h (by simp [run_tournament])
  | cons v rest =>
    obtain ⟨k0, m0⟩ := v
    simp only [run_tournament] at h
    injection h with h
    subst h
    obtain ⟨hmem, hle, hall⟩ :=
      pyMaxKey_spec (fun k => (evaluate_version ((k0, m0) :: rest) k).total)
        (rest.map Prod.fst) k0
    constructor
    · simp only [List.map_cons]
      rcases hmem with h | h
      · rw [h]; exact List.mem_cons_self _ _
      · exact List.mem_cons_of_mem _ h
    · intro k hk
      simp only [List.map_cons, List.mem_cons] at hk
      rcases hk with h | h
      · subst h; exact hle
      · exact hall k h

/-- Witness for C2 on a concrete one-version map. -/
theorem run_tournament_champion_witness :
    run_tournament [("a".data, ⟨"p".data, "a".data, "# T".data, 1, 0⟩)] =
        .ok "a".data ∧
      ("a".data ∈
          [("a".data,
            (⟨"p".data, "a".data, "# T".data, 1, 0⟩ : DocumentMetadata))].map
            Prod.fst ∧
        ∀ k ∈
            [("a".data,
              (⟨"p".data, "a".data, "# T".data, 1, 0⟩ : DocumentMetadata))].map
              Prod.fst,
          (evaluate_version
              [("a".data, ⟨"p".data, "a".data, "# T".data, 1, 0⟩)] k).total ≤
            (evaluate_version
              [("a".data, ⟨"p".data, "a".data, "# T".data, 1, 0⟩)]
              "a".data).total) :=
  ⟨rfl, run_tournament_champion _ _ rfl⟩

theorem listMinQ_le_init (l : List ℚ) : ∀ a : ℚ, listMinQ a l ≤ a := by
  induction l with
  | nil => exact fun a => le_refl a
  | cons t ts ih =>
    exact fun a => le_trans (ih (min a t)) (min_le_left a t)

theorem listMinQ_le_mem (l : List ℚ) (x : ℚ) :
    ∀ a : ℚ, x ∈ l → listMinQ a l ≤ x := by
  induction l with
  | nil => intro a hx; simp at hx
  | cons t ts ih =>
    intro a hx
    rcases List.mem_cons.mp hx with h | h
    · subst h
      exact le_trans (listMinQ_le_init ts (min a x)) (min_le_right a x)
    · exact ih (min a t) h

theorem le_listMaxQ_init (l : List ℚ) : ∀ a : ℚ, a ≤ listMaxQ a l := by
  induction l with
  | nil => exact fun a => le_refl a
  | cons t ts ih =>
    exact fun a => le_trans (le_max_left a t) (ih (max a t))

theorem mem_le_listMaxQ (l : List ℚ) (x : ℚ) :
    ∀ a : ℚ, x ∈ l → x ≤ listMaxQ a l := by
  induction l with
  | nil => intro a hx; simp at hx
  | cons t ts ih =>
    intro a hx
    rcases List.mem_cons.mp hx with h | h
    · subst h
      exact le_trans (le_max_right a x) (le_listMaxQ_init ts (max a x))
    · exact ih (max a t) h

theorem listMinQ_const (l : List ℚ) :
    ∀ a : ℚ, (∀ x ∈ l, x = a) → listMinQ a l = a := by
  induction l with
  | nil => intro a _; rfl
  | cons t ts ih =>
    intro a h
    have ht : t = a := h t (List.mem_cons_self t ts)
    subst ht
    simp only [listMinQ, min_self]
    exact ih t (fun x hx => h x (List.mem_cons_of_mem t hx))

theorem listMaxQ_const (l : List ℚ) :
    ∀ a : ℚ, (∀ x ∈ l, x = a) → listMaxQ a l = a := by
  induction l with
  | nil => intro a _; rfl
  | cons t ts ih =>
    intro a h
    have ht : t = a := h t (List.mem_cons_self t ts)
    subst ht
    simp only [listMaxQ, max_self]
    exact ih t (fun x hx => h x (List.mem_cons_of_mem t hx))

/-- C5: on a nonempty version map, `score_recency` returns exactly 5.0 for
every version when all versions share one modification time, and otherwise
the linear normalization of the version's time between the cohort's oldest
and newest times scaled to `[0, 10]`. -/
theorem score_recency_spec (versions : List (Str × DocumentMetadata))
    (k : Str) (hne : versions ≠ []) (hk : k ∈ versions.map Prod.fst) :
    ((∀ p ∈ versions, ∀ q ∈ versions,
        p.2.modified_time = q.2.modified_time) →
      score_recency versions k = 5) ∧
      (¬(∀ p ∈ versions, ∀ q ∈ versions,
          p.2.modified_time = q.2.modified_time) →
        score_recency versions k =
          ((getVersion versions k).modified_time - oldestTime versions) /
            (newestTime versions - oldestTime versions) * 10) := by
  cases versions with
  | nil => exact absurd rfl hne
  | cons v rest =>
    have holdest : oldestTime (v :: rest) =
        listMinQ v.2.modified_time (rest.map (fun p => p.2.modified_time)) := rfl
    have hnewest : newestTime (v :: rest) =
        listMaxQ v.2.modified_time (rest.map (fun p => p.2.modified_time)) := rfl
    constructor
    · intro hall
      have hconst : ∀ x ∈ rest.map (fun p => p.2.modified_time),
          x = v.2.modified_time := by
        intro x hx
        obtain ⟨p, hp, rfl⟩ := List.mem_map.mp hx
        exact hall p (List.mem_cons_of_mem _ hp) v (List.mem_cons_self _ _)
      have heq : newestTime (v :: rest) = oldestTime (v :: rest) := by
        rw [holdest, hnewest, listMinQ_const _ _ hconst,
          listMaxQ_const _ _ hconst]
      unfold score_recency
      rw [if_pos heq]
    · intro hnall
      have hne2 : ¬ newestTime (v :: rest) = oldestTime (v :: rest) := by
        intro heq
        apply hnall
        have hbound : ∀ x ∈ (v :: rest).map (fun p => p.2.modified_time),
            x = oldestTime (v :: rest) := by
          intro x hx
          have h1 : oldestTime (v :: rest) ≤ x := by
            rcases List.mem_map.mp hx with ⟨p', hp', rfl⟩
            rcases List.mem_cons.mp hp' with h | h
            · subst h; rw [holdest]; exact listMinQ_le_init _ _
            · rw [holdest]
              exact listMinQ_le_mem _ _ _ (List.mem_map_of_mem _ h)
          have h2 : x ≤ newestTime (v :: rest) := by
            rcases List.mem_map.mp hx with ⟨p', hp', rfl⟩
            rcases List.mem_cons.mp hp' with h | h
            · subst h; rw [hnewest]; exact le_listMaxQ_init _ _
            · rw [hnewest]
              exact mem_le_listMaxQ _ _ _ (List.mem_map_of_mem _ h)
          rw [heq] at h2
          linarith
        intro p hp q hq
        have hp' := hbound p.2.modified_time (List.mem_map_of_mem _ hp)
        have hq' := hbound q.2.modified_time (List.mem_map_of_mem _ hq)
        rw [hp', hq']
      unfold score_recency
      rw [if_neg hne2]

/-- Witness for C5 on a concrete two-version map sharing one timestamp. -/
theorem score_recency_spec_witness :
    ([("a".data, ⟨"pa".data, "a".data, "# A".data, 1, 3⟩),
        ("b".data, ⟨"pb".data, "b".data, "# B".data, 1, 3⟩)] :
        List (Str × DocumentMetadata)) ≠ [] ∧
      "a".data ∈
        ([("a".data, ⟨"pa".data, "a".data, "# A".data, 1, 3⟩),
          ("b".data, ⟨"pb".data, "b".data, "# B".data, 1, 3⟩)] :
          List (Str × DocumentMetadata)).map Prod.fst ∧
      score_recency
        [("a".data, ⟨"pa".data, "a".data, "# A".data, 1, 3⟩),
          ("b".data, ⟨"pb".data, "b".data, "# B".data, 1, 3⟩)] "a".data = 5 := by
  refine ⟨by simp, by simp, ?_⟩
  refine (score_recency_spec _ _ (by simp) (by simp)).1 ?_
  intro p hp q hq
  have hp2 : p.2.modified_time = 3 := by
    rcases List.mem_cons.mp hp with h | h
    · subst h; rfl
    · rcases List.mem_cons.mp h with h2 | h2
      · subst h2; rfl
      · simp at h2
  have hq2 : q.2.modified_time = 3 := by
    rcases List.mem_cons.mp hq with h | h
    · subst h; rfl
    · rcases List.mem_cons.mp h with h2 | h2
      · subst h2; rfl
      · simp at h2
  rw [hp2, hq2]

/-- C3 counterexample: for champion section `## A\nzzzz` and the same-titled
non-champion section `## A\n++a\n++b\n++c`, the similarity ratio is
0.4 < 0.8 and three lines are introduced only in the non-champion version
(none of them a diff header), yet the code emits no improvement at all:
its `not line.startswith("+++")` filter, meant to drop the unified-diff
file header, also drops every added line whose text begins `++` (rendered
`+++…` in the diff), so the code's added-line count is 0 < 3. -/
theorem enhanced_section_emission_counterexample :
    titleLookup [⟨2, "A".data, "## A\nzzzz".data, 0, 1⟩]
        (pyLower (⟨2, "A".data, "## A\n++a\n++b\n++c".data, 0, 3⟩ :
          SectionData).title) =
      some ⟨2, "A".data, "## A\nzzzz".data, 0, 1⟩ ∧
      ratioQ "## A\nzzzz".data "## A\n++a\n++b\n++c".data < 4 / 5 ∧
      introducedLinesCount (pySplitlines "## A\nzzzz".data)
        (pySplitlines "## A\n++a\n++b\n++c".data) = 3 ∧
      processOther [⟨2, "A".data, "## A\nzzzz".data, 0, 1⟩] "f".data
        ⟨2, "A".data, "## A\n++a\n++b\n++c".data, 0, 3⟩ = [] := by
  have hr : ratioQ "## A\nzzzz".data "## A\n++a\n++b\n++c".data < 4 / 5 := by
    have hm : matchedTotal "## A\nzzzz".data "## A\n++a\n++b\n++c".data = 5 := by
      decide
    have hl1 : ("## A\nzzzz".data : Str).length = 9 := by decide
    have hl2 : ("## A\n++a\n++b\n++c".data : Str).length = 16 := by decide
    unfold ratioQ
    rw [hm, hl1, hl2]
    norm_num
  refine ⟨by decide, hr, by decide, ?_⟩
  simp only [processOther,
    show titleLookup [⟨2, "A".data, "## A\nzzzz".data, 0, 1⟩]
        (pyLower (⟨2, "A".data, "## A\n++a\n++b\n++c".data, 0, 3⟩ :
          SectionData).title) =
      some ⟨2, "A".data, "## A\nzzzz".data, 0, 1⟩ from by decide]
  rw [if_pos hr]
  rw [if_neg (by decide)]

/-- C3 (amended): for a non-champion section whose lowercase title matches
a champion section via the title map of `find_unique_sections` (whose
per-section loop body is `processOther`), an `enhanced_section`
improvement is emitted iff the similarity ratio is strictly below 0.8 and
the count of diff lines the code keeps — introduced non-champion lines
whose text does not begin `++`, because the `startswith("+++")` test that
drops the diff file header also drops those — is at least 3; when emitted
its value is `"medium"` when that count is below 10 and `"high"`
otherwise. -/
theorem enhanced_section_emission (championSections : List SectionData)
    (folder : Str) (s cSec : SectionData)
    (h : titleLookup championSections (pyLower s.title) = some cSec) :
    ((∃ imp ∈ processOther championSections folder s,
        imp.type = "enhanced_section".data) ↔
      (ratioQ cSec.content s.content < 4 / 5 ∧
        3 ≤ (diffAddedLines (pySplitlines cSec.content)
          (pySplitlines s.content)).length)) ∧
      ∀ imp ∈ processOther championSections folder s,
        imp.type = "enhanced_section".data →
          imp.value =
            if (diffAddedLines (pySplitlines cSec.content)
                (pySplitlines s.content)).length < 10
            then "medium".data else "high".data := by
  simp only [processOther, h]
  by_cases h1 : ratioQ cSec.content s.content < 4 / 5
  · rw [if_pos h1]
    by_cases h2 : 3 ≤ (diffAddedLines (pySplitlines cSec.content)
        (pySplitlines s.content)).length
    · rw [if_pos h2]
      constructor
      · constructor
        · intro _
          exact ⟨h1, h2⟩
        · intro _
          exact ⟨_, List.mem_cons_self _ _, rfl⟩
      · intro imp hmem hty
        have himp := List.mem_singleton.mp hmem
        subst himp
        rfl
    · rw [if_neg h2]
      constructor
      · constructor
        · intro hex
          obtain ⟨imp, hmem, _⟩ := hex
          simp at hmem
        · intro hrhs
          exact absurd hrhs.2 h2
      · intro imp hmem
        simp at hmem
  · rw [if_neg h1]
    constructor
    · constructor
      · intro hex
        obtain ⟨imp, hmem, _⟩ := hex
        simp at hmem
      · intro hrhs
        exact absurd hrhs.1 h1
    · intro imp hmem
      simp at hmem

/-- Witness for C3 on a concrete pair of same-titled sections. -/
theorem enhanced_section_emission_witness :
    titleLookup [⟨2, "A".data, "## A\np\nq\nr".data, 0, 3⟩]
        (pyLower (⟨2, "A".data, "## A\nx\ny\nz".data, 0, 3⟩ : SectionData).title) =
      some ⟨2, "A".data, "## A\np\nq\nr".data, 0, 3⟩ ∧
      (((∃ imp ∈ processOther [⟨2, "A".data, "## A\np\nq\nr".data, 0, 3⟩]
            "f".data ⟨2, "A".data, "## A\nx\ny\nz".data, 0, 3⟩,
          imp.type = "enhanced_section".data) ↔
        (ratioQ "## A\np\nq\nr".data "## A\nx\ny\nz".data < 4 / 5 ∧
          3 ≤ (diffAddedLines (pySplitlines "## A\np\nq\nr".data)
            (pySplitlines "## A\nx\ny\nz".data)).length)) ∧
        ∀ imp ∈ processOther [⟨2, "A".data, "## A\np\nq\nr".data, 0, 3⟩]
            "f".data ⟨2, "A".data, "## A\nx\ny\nz".data, 0, 3⟩,
          imp.type = "enhanced_section".data →
            imp.value =
              if (diffAddedLines (pySplitlines "## A\np\nq\nr".data)
                  (pySplitlines "## A\nx\ny\nz".data)).length < 10
              then "medium".data else "high".data) :=
  ⟨by decide,
    enhanced_section_emission [⟨2, "A".data, "## A\np\nq\nr".data, 0, 3⟩]
      "f".data ⟨2, "A".data, "## A\nx\ny\nz".data, 0, 3⟩
      ⟨2, "A".data, "## A\np\nq\nr".data, 0, 3⟩ (by decide)⟩

theorem find_self_of_nodup_titles (l : List SectionData)
    (hnodup : (l.map (fun x => pyLower x.title)).Nodup)
    (s : SectionData) (hs : s ∈ l) :
    l.find? (fun x => pyLower x.title == pyLower s.title) = some s := by
  induction l with
  | nil => simp at hs
  | cons y ys ih =>
    rcases List.mem_cons.mp hs with hcase | hcase
    · subst hcase
      simp [List.find?]
    · have hny : ¬ (pyLower y.title == pyLower s.title) = true := by
        intro hbeq
        have heq : pyLower y.title = pyLower s.title := by
          exact eq_of_beq hbeq
        have hy : pyLower y.title ∉ ys.map (fun x => pyLower x.title) :=
          (List.nodup_cons.mp (by simpa using hnodup)).1
        exact hy (heq ▸ List.mem_map_of_mem _ hcase)
      simp only [List.find?]
      rw [Bool.of_not_eq_true hny]
      exact ih (List.nodup_cons.mp (by simpa using hnodup)).2 hcase

theorem titleLookup_self (sections : List SectionData)
    (hnodup : (sections.map (fun x => pyLower x.title)).Nodup)
    (s : SectionData) (hs : s ∈ sections) :
    titleLookup sections (pyLower s.title) = some s := by
  unfold titleLookup
  refine find_self_of_nodup_titles sections.reverse ?_ s
    (List.mem_reverse.mpr hs)
  rw [List.map_reverse]
  exact List.nodup_reverse.mpr hnodup

theorem flatMap_eq_nil_of_all {α β : Type} {f : α → List β} (l : List α)
    (h : ∀ x ∈ l, f x = []) : l.flatMap f = [] := by
  induction l with
  | nil => rfl
  | cons x xs ih =>
    rw [List.flatMap_cons, h x (List.mem_cons_self x xs),
      ih (fun y hy => h y (List.mem_cons_of_mem x hy))]
    rfl

/-- C7 counterexample: on a document that repeats the section title `A`
with materially different bodies, diffing the document against itself
emits an improvement (the title map maps `a` to the last `A` section, so
the first `A` section is diffed against the second and crosses both the
similarity and introduced-line thresholds). -/
theorem diff_identical_counterexample :
    find_unique_sections "## A\nx\ny\nz\n## A\np\nq\nr".data
      "## A\nx\ny\nz\n## A\np\nq\nr".data "f".data ≠ [] := by
  have hsec : extract_sections "## A\nx\ny\nz\n## A\np\nq\nr".data =
      [⟨2, "A".data, "## A\nx\ny\nz".data, 0, 3⟩,
        ⟨2, "A".data, "## A\np\nq\nr".data, 4, 7⟩] := by decide
  have hlook : titleLookup
      [⟨2, "A".data, "## A\nx\ny\nz".data, 0, 3⟩,
        ⟨2, "A".data, "## A\np\nq\nr".data, 4, 7⟩]
      (pyLower (⟨2, "A".data, "## A\nx\ny\nz".data, 0, 3⟩ : SectionData).title) =
      some ⟨2, "A".data, "## A\np\nq\nr".data, 4, 7⟩ := by decide
  have hm : matchedTotal "## A\np\nq\nr".data "## A\nx\ny\nz".data = 7 := by
    decide
  have hlen1 : ("## A\np\nq\nr".data : Str).length = 10 := by decide
  have hlen2 : ("## A\nx\ny\nz".data : Str).length = 10 := by decide
  have hr : ratioQ "## A\np\nq\nr".data "## A\nx\ny\nz".data < 4 / 5 := by
    unfold ratioQ
    rw [hm, hlen1, hlen2]
    norm_num
  have hadded : (diffAddedLines (pySplitlines "## A\np\nq\nr".data)
      (pySplitlines "## A\nx\ny\nz".data)).length = 3 := by decide
  unfold find_unique_sections
  rw [hsec, List.flatMap_cons]
  intro hcontra
  rcases List.append_eq_nil.mp hcontra with ⟨hfst, _⟩
  have hne : processOther
      [⟨2, "A".data, "## A\nx\ny\nz".data, 0, 3⟩,
        ⟨2, "A".data, "## A\np\nq\nr".data, 4, 7⟩] "f".data
      ⟨2, "A".data, "## A\nx\ny\nz".data, 0, 3⟩ ≠ [] := by
    simp only [processOther, hlook]
    rw [if_pos hr]
    rw [if_pos (by rw [hadded])]
    simp
  exact hne hfst

/-- C7 (amended): for every document whose sections carry pairwise-distinct
lowercase titles, diffing the document against itself yields zero
improvements: `find_unique_sections` emits nothing and `compare_citations`
reports no citation improvement.  (Without the distinct-title proviso the
original claim fails: see the counterexample, where a repeated title makes
the extractor diff the first occurrence against the last.) -/
theorem diff_identical_amended (re : ReCount) (content folder : Str)
    (hnodup : ((extract_sections content).map (fun x => pyLower x.title)).Nodup) :
    find_unique_sections content content folder = [] ∧
      compare_citations re content content = none := by
  constructor
  · unfold find_unique_sections
    refine flatMap_eq_nil_of_all _ (fun s hs => ?_)
    have hlook : titleLookup (extract_sections content) (pyLower s.title) =
        some s := titleLookup_self _ hnodup s hs
    simp only [processOther, hlook]
    rw [if_neg (by rw [ratioQ_self]; norm_num)]
  · simp [compare_citations, lt_irrefl]

/-- Witness for C7 on a concrete document with distinct section titles. -/
theorem diff_identical_amended_witness :
    ((extract_sections "# T\n## A\nx\n## B\ny".data).map
        (fun x => pyLower x.title)).Nodup ∧
      find_unique_sections "# T\n## A\nx\n## B\ny".data
        "# T\n## A\nx\n## B\ny".data "f".data = [] ∧
      compare_citations (fun _ _ => 0) "# T\n## A\nx\n## B\ny".data
        "# T\n## A\nx\n## B\ny".data = none := by
  refine ⟨by decide, ?_, ?_⟩
  · exact (diff_identical_amended (fun _ _ => 0) _ "f".data (by decide)).1
  · exact (diff_identical_amended (fun _ _ => 0) _ "f".data (by decide)).2

/-- C4 counterexample: with all four verification checks enabled but the
default integration configuration (`add_evolution_metadata = true`), the
formatting check flags the missing `## Document Evolution` section of
`"# T\n## A\nx\n## B\ny\n"`, so verification does not pass with zero
issues for every configuration that enables the four checks. -/
theorem verify_clean_document_counterexample :
    (⟨⟨true, true, true, false⟩, ⟨true, true, true, true, 2⟩⟩ :
        Settings).verification.check_markdown_formatting = true ∧
      (⟨⟨true, true, true, false⟩, ⟨true, true, true, true, 2⟩⟩ :
        Settings).verification.check_section_numbering = true ∧
      (⟨⟨true, true, true, false⟩, ⟨true, true, true, true, 2⟩⟩ :
        Settings).verification.check_no_duplication = true ∧
      (⟨⟨true, true, true, false⟩, ⟨true, true, true, true, 2⟩⟩ :
        Settings).verification.check_document_navigability = true ∧
      (verify_document
          ⟨⟨true, true, true, false⟩, ⟨true, true, true, true, 2⟩⟩
          (fun _ => some "# T\n## A\nx\n## B\ny\n".data)
          "d.md".data "out".data).toOption.map
        (fun res => (res.passed, res.issues.length)) = some (false, 1) := by
  refine ⟨rfl, rfl, rfl, rfl, ?_⟩
  decide

/-- C4 (amended): with all four verification checks enabled, evolution
metadata not expected (`add_evolution_metadata = false`) and any valid
blank-line maximum (≥ 1), verifying `"# T\n## A\nx\n## B\ny\n"` yields a
passing result with an empty issue list. -/
theorem verify_clean_document (cfg : Settings) (repo : Repo)
    (filename filepath : Str)
    (h1 : cfg.verification.check_markdown_formatting = true)
    (h2 : cfg.verification.check_section_numbering = true)
    (h3 : cfg.verification.check_no_duplication = true)
    (h4 : cfg.verification.check_document_navigability = true)
    (h5 : cfg.integration.add_evolution_metadata = false)
    (h6 : 1 ≤ cfg.verification.max_consecutive_blank_lines)
    (hrepo : repo filepath = some "# T\n## A\nx\n## B\ny\n".data) :
    verify_document cfg repo filename filepath =
      .ok { filename := filename, filepath := filepath, line_count := 6,
            issues := [], passed := true } := by
  have hfmt : verify_markdown_formatting cfg "# T\n## A\nx\n## B\ny\n".data = [] := by
    unfold verify_markdown_formatting
    rw [h1]
    simp only [Bool.not_true, Bool.false_eq_true, if_false]
    rw [show ((splitCh "# T\n## A\nx\n## B\ny\n".data).enum.filterMap (fun p =>
        if pyStartsWith p.2 "#".data && (reHeader 1 6 p.2).isNone then
          some { type := "formatting".data, severity := "medium".data
                 message := "Malformed header: ".data ++ p.2.take 50
                 line_number := some (p.1 + 1) }
        else (none : Option VerificationIssue))) = [] from by decide]
    rw [h5]
    simp only [Bool.false_eq_true, if_false, List.append_nil, List.nil_append]
    rw [show splitCh "# T\n## A\nx\n## B\ny\n".data =
      ["# T".data, "## A".data, "x".data, "## B".data, "y".data, []] from by decide]
    simp only [blankIssuesAux,
      show (pyStrip "# T".data == ([] : Str)) = false from by decide,
      show (pyStrip "## A".data == ([] : Str)) = false from by decide,
      show (pyStrip "x".data == ([] : Str)) = false from by decide,
      show (pyStrip "## B".data == ([] : Str)) = false from by decide,
      show (pyStrip "y".data == ([] : Str)) = false from by decide,
      show (pyStrip ([] : Str) == ([] : Str)) = true from by decide,
      Bool.false_eq_true, if_false, if_true]
    rw [if_neg (by omega)]
    rfl
  have hnum : verify_section_numbering cfg "# T\n## A\nx\n## B\ny\n".data = [] := by
    unfold verify_section_numbering
    rw [h2]
    simp only [Bool.not_true, Bool.false_eq_true, if_false]
    decide
  have hdup : verify_no_duplication cfg "# T\n## A\nx\n## B\ny\n".data = [] := by
    unfold verify_no_duplication
    rw [h3]
    simp only [Bool.not_true, Bool.false_eq_true, if_false]
    decide
  have hnav : verify_document_navigability cfg "# T\n## A\nx\n## B\ny\n".data = [] := by
    unfold verify_document_navigability
    rw [h4]
    simp only [Bool.not_true, Bool.false_eq_true, if_false]
    rw [if_neg (by decide)]
  unfold verify_document
  rw [hrepo]
  simp only [hfmt, hnum, hdup, hnav, List.append_nil]
  rw [show countOccs "\n".data "# T\n## A\nx\n## B\ny\n".data = 5 from by decide]
  rfl

/-- Witness for C4 (amended) at a concrete configuration. -/
theorem verify_clean_document_witness :
    verify_document ⟨⟨false, true, true, false⟩, ⟨true, true, true, true, 2⟩⟩
        (fun _ => some "# T\n## A\nx\n## B\ny\n".data) "d.md".data "out".data =
      .ok { filename := "d.md".data, filepath := "out".data, line_count := 6,
            issues := [], passed := true } :=
  verify_clean_document ⟨⟨false, true, true, false⟩, ⟨true, true, true, true, 2⟩⟩
    (fun _ => some "# T\n## A\nx\n## B\ny\n".data) "d.md".data "out".data
    rfl rfl rfl rfl rfl (by decide) rfl

theorem mem_insertSortedBy {le : α → α → Bool} {x y : α} {l : List α}
    (h : x ∈ insertSortedBy le y l) : x = y ∨ x ∈ l := by
  induction l with
  | nil => simpa [insertSortedBy] using h
  | cons z zs ih =>
    simp only [insertSortedBy] at h
    split at h
    · rcases List.mem_cons.mp h with h1 | h1
      · exact Or.inl h1
      · exact Or.inr h1
    · rcases List.mem_cons.mp h with h1 | h1
      · exact Or.inr (h1 ▸ List.mem_cons_self z zs)
      · rcases ih h1 with h2 | h2
        · exact Or.inl h2
        · exact Or.inr (List.mem_cons_of_mem z h2)

theorem mem_insertSortedBy_of_mem {le : α → α → Bool} {x y : α} {l : List α}
    (h : x = y ∨ x ∈ l) : x ∈ insertSortedBy le y l := by
  induction l with
  | nil =>
    rcases h with h | h
    · simp [insertSortedBy, h]
    · simp at h
  | cons z zs ih =>
    simp only [insertSortedBy]
    split
    · rcases h with h | h
      · exact h ▸ List.mem_cons_self _ _
      · exact List.mem_cons_of_mem _ h
    · rcases h with h | h
      · exact List.mem_cons_of_mem _ (ih (Or.inl h))
      · rcases List.mem_cons.mp h with h1 | h1
        · exact h1 ▸ List.mem_cons_self _ _
        · exact List.mem_cons_of_mem _ (ih (Or.inr h1))

theorem mem_sortBy_of_mem {le : α → α → Bool} {x : α} {l : List α}
    (h : x ∈ l) : x ∈ sortBy le l := by
  induction l with
  | nil => simp at h
  | cons y ys ih =>
    simp only [sortBy, List.foldr_cons]
    rcases List.mem_cons.mp h with h1 | h1
    · exact mem_insertSortedBy_of_mem (Or.inl h1)
    · exact mem_insertSortedBy_of_mem (Or.inr (ih h1))

theorem extract_ok_of_champion_readable (re : ReCount) (repo : Repo)
    (tr : TournamentResult) (c : Str) (hc : repo tr.champion_path = some c) :
    ∃ out, extract_for_document re repo tr = .ok out := by
  unfold extract_for_document
  rw [hc]
  dsimp only
  split
  · exact ⟨_, rfl⟩
  · exact ⟨_, rfl⟩

theorem foldlM_extract_error (re : ReCount) (repo : Repo) :
    ∀ (l : List (Str × TournamentResult))
      (acc : List (Str × ExtractOutput)),
      (∃ p ∈ l, repo p.2.champion_path = none) →
      ∃ e, (l.foldlM (fun acc p => do
          match ← extract_for_document re repo p.2 with
          | some out => pure (acc ++ [(p.1, out)])
          | none => pure acc) acc :
        Except Str (List (Str × ExtractOutput))) = .error e := by
  intro l
  induction l with
  | nil =>
    intro acc h
    obtain ⟨p, hp, _⟩ := h
    simp at hp
  | cons q rest ih =>
    intro acc h
    obtain ⟨p, hp, hbad⟩ := h
    rw [List.foldlM_cons]
    cases hrepo : repo q.2.champion_path with
    | none =>
      have herr : extract_for_document re repo q.2 =
          .error ("Failed to read champion document: ".data ++ q.2.champion_path) := by
        unfold extract_for_document
        rw [hrepo]
      rw [herr]
      exact ⟨_, rfl⟩
    | some c =>
      obtain ⟨out, hout⟩ := extract_ok_of_champion_readable re repo q.2 c hrepo
      rw [hout]
      have hp' : p ∈ rest := by
        rcases List.mem_cons.mp hp with h1 | h1
        · subst h1
          rw [hbad] at hrepo
          exact absurd hrepo (by simp)
        · exact h1
      cases out with
      | some o => exact ih _ ⟨p, hp', hbad⟩
      | none => exact ih _ ⟨p, hp', hbad⟩

/-- C9 (amended): a missing or unreadable non-champion file is skipped
inside the family — extraction still succeeds for a family whose champion
is readable — but a missing or unreadable champion document makes the
uncaught exception propagate out of `run_extraction`, aborting the whole
extraction run (no family appears in any output), not only that family. -/
theorem extraction_error_handling (re : ReCount) (repo : Repo)
    (tr : TournamentResult) (c : Str) (hc : repo tr.champion_path = some c)
    (trs : List (Str × TournamentResult)) (f : Str × TournamentResult)
    (hf : f ∈ trs) (hbad : repo f.2.champion_path = none) :
    (∃ out, extract_for_document re repo tr = .ok out) ∧
      ∃ e, run_extraction re repo trs = .error e := by
  refine ⟨extract_ok_of_champion_readable re repo tr c hc, ?_⟩
  unfold run_extraction
  rw [if_neg (by cases trs with
    | nil => simp at hf
    | cons a l => simp)]
  exact foldlM_extract_error re repo _ []
    ⟨f, mem_sortBy_of_mem hf, hbad⟩

/-- C9 counterexample: with two families `a.md` (unreadable champion at
`pa`) and `b.md` (readable champion at `pb`), `run_extraction` raises on
the first family instead of processing `b.md` — contrary to the claim that
remaining families still appear in the extraction output, there is no
output at all. -/
theorem extraction_error_handling_counterexample :
    run_extraction (fun _ _ => 0)
      (fun p => if p == "pb".data then some "# B".data else none)
      [("a.md".data,
        { filename := "a.md".data, champion_folder := "fa".data,
          champion_path := "pa".data, champion_score := 0,
          champion_breakdown := ⟨0, 0, 0, 0, 0⟩, all_scores := [],
          version_count := 2, runners_up := [] }),
        ("b.md".data,
        { filename := "b.md".data, champion_folder := "fb".data,
          champion_path := "pb".data, champion_score := 0,
          champion_breakdown := ⟨0, 0, 0, 0, 0⟩, all_scores := [],
          version_count := 2, runners_up := [] })] =
      .error ("Failed to read champion document: ".data ++ "pa".data) := by
  rfl

/-- Witness for C9 on the concrete two-family repository. -/
theorem extraction_error_handling_witness :
    (∃ out, extract_for_document (fun _ _ => 0)
        (fun p => if p == "pb".data then some "# B".data else none)
        { filename := "b.md".data, champion_folder := "fb".data,
          champion_path := "pb".data, champion_score := 0,
          champion_breakdown := ⟨0, 0, 0, 0, 0⟩, all_scores := [],
          version_count := 2, runners_up := [] } = .ok out) ∧
      ∃ e, run_extraction (fun _ _ => 0)
        (fun p => if p == "pb".data then some "# B".data else none)
        [("a.md".data,
          { filename := "a.md".data, champion_folder := "fa".data,
            champion_path := "pa".data, champion_score := 0,
            champion_breakdown := ⟨0, 0, 0, 0, 0⟩, all_scores := [],
            version_count := 2, runners_up := [] }),
          ("b.md".data,
          { filename := "b.md".data, champion_folder := "fb".data,
            champion_path := "pb".data, champion_score := 0,
            champion_breakdown := ⟨0, 0, 0, 0, 0⟩, all_scores := [],
            version_count := 2, runners_up := [] })] = .error e :=
  extraction_error_handling (fun _ _ => 0)
    (fun p => if p == "pb".data then some "# B".data else none)
    { filename := "b.md".data, champion_folder := "fb".data,
      champion_path := "pb".data, champion_score := 0,
      champion_breakdown := ⟨0, 0, 0, 0, 0⟩, all_scores := [],
      version_count := 2, runners_up := [] } "# B".data rfl
    [("a.md".data,
      { filename := "a.md".data, champion_folder := "fa".data,
        champion_path := "pa".data, champion_score := 0,
        champion_breakdown := ⟨0, 0, 0, 0, 0⟩, all_scores := [],
        version_count := 2, runners_up := [] }),
      ("b.md".data,
      { filename := "b.md".data, champion_folder := "fb".data,
        champion_path := "pb".data, champion_score := 0,
        champion_breakdown := ⟨0, 0, 0, 0, 0⟩, all_scores := [],
        version_count := 2, runners_up := [] })]
    ("a.md".data,
      { filename := "a.md".data, champion_folder := "fa".data,
        champion_path := "pa".data, champion_score := 0,
        champion_breakdown := ⟨0, 0, 0, 0, 0⟩, all_scores := [],
        version_count := 2, runners_up := [] })
    (List.mem_cons_self _ _) rfl

theorem mem_splitCh_integrateStep (cfg : Settings) (st : IntegState)
    (imp : UniqueImprovement) (l : Str) (hl : l ∈ splitCh st.content) :
    l ∈ splitCh (integrateStep cfg st imp).content := by
  unfold integrateStep
  split
  · exact hl
  · dsimp only
    split
    · exact hl
    · exact mem_splitCh_insert hl _ _

theorem mem_splitCh_integrate_foldl (cfg : Settings)
    (imps : List UniqueImprovement) :
    ∀ (st : IntegState) (l : Str), l ∈ splitCh st.content →
      l ∈ splitCh (imps.foldl (integrateStep cfg) st).content := by
  induction imps with
  | nil => exact fun st l hl => hl
  | cons imp rest ih =>
    intro st l hl
    exact ih _ _ (mem_splitCh_integrateStep cfg st imp l hl)

theorem mem_splitCh_integrate_citations (cfg : Settings) (s : Str)
    (cits : List Str) (folder : Str) (l : Str) (hl : l ∈ splitCh s) :
    l ∈ splitCh (integrate_citations cfg s cits folder) := by
  unfold integrate_citations
  split
  · exact hl
  · exact mem_splitCh_insert hl _ _

theorem mem_splitCh_citationStep (cfg : Settings) (findAll : ReFindAll)
    (repo : Repo) (cp cf : Str) (st : Str × Nat) (imp : UniqueImprovement)
    (l : Str) (hl : l ∈ splitCh st.1) :
    l ∈ splitCh (citationStep cfg findAll repo cp cf st imp).1 := by
  unfold citationStep
  split
  · exact hl
  · split
    · exact hl
    · dsimp only
      split
      · exact hl
      · exact mem_splitCh_integrate_citations cfg st.1 _ _ l hl

theorem mem_splitCh_citation_foldl (cfg : Settings) (findAll : ReFindAll)
    (repo : Repo) (cp cf : Str) (imps : List UniqueImprovement) :
    ∀ (st : Str × Nat) (l : Str), l ∈ splitCh st.1 →
      l ∈ splitCh (imps.foldl (citationStep cfg findAll repo cp cf) st).1 := by
  induction imps with
  | nil => exact fun st l hl => hl
  | cons imp rest ih =>
    intro st l hl
    exact ih _ _ (mem_splitCh_citationStep cfg findAll repo cp cf st imp l hl)

theorem isInfix_append_right {l A : Str} (B : Str) (h : l <:+: A) :
    l <:+: A ++ B := by
  obtain ⟨s, t, ht⟩ := h
  exact ⟨s, t ++ B, by rw [← ht]; simp⟩

theorem infix_add_evolution_metadata (cfg : Settings) (today orig integ : Str)
    (imps : List UniqueImprovement) (l : Str) (hl : l ∈ splitCh integ) :
    l <:+: add_evolution_metadata cfg today orig integ imps := by
  have hbase : l <:+: integ := by
    have h := infix_joinCh_of_mem hl
    rwa [joinCh_splitCh] at h
  unfold add_evolution_metadata
  split
  · exact hbase
  · exact isInfix_append_right _ hbase

/-- C1: whenever `integrate_document` produces a result, every line of the
original champion document (split at newlines) is a contiguous substring
of the integrated text: the first pass, the citation pass and the
metadata footer only ever insert whole blocks at line boundaries or append
at the end, never deleting or rewriting champion lines. -/
theorem integration_preserves_champion_lines (cfg : Settings)
    (findAll : ReFindAll) (repo : Repo) (today filename : Str)
    (d : ExtractOutput) (r : IntegrationResult) (c : Str)
    (hc : repo d.champion_path = some c)
    (hok : integrate_document cfg findAll repo today filename d =
      .ok (some r)) :
    ∀ l ∈ splitCh c, l <:+: r.integrated_content := by
  intro l hl
  unfold integrate_document at hok
  rw [hc] at hok
  dsimp only at hok
  split at hok
  · exact absurd hok (by simp)
  · injection hok with hok
    injection hok with hok
    subst hok
    refine infix_add_evolution_metadata _ _ _ _ _ _ ?_
    refine mem_splitCh_citation_foldl cfg findAll repo _ _ _ _ l ?_
    exact mem_splitCh_integrate_foldl cfg _ ⟨c, 0, []⟩ l hl

/-- Witness for C1 on a concrete integration run. -/
theorem integration_preserves_champion_lines_witness :
    ∃ r, integrate_document
        ⟨⟨false, false, true, false⟩, ⟨true, true, true, true, 2⟩⟩
        (fun _ _ => []) (fun p => if p == "p".data then some "# T\nhello".data else none)
        "2026-01-01".data "doc.md".data
        { champion := "fa".data, champion_path := "p".data, champion_score := 0,
          improvements :=
            [{ type := "new_section".data, source_folder := "fb".data,
               value := "high".data, reason := [], title := some "N".data,
               content := some "## N\nbody".data }],
          improvement_count := 1 } = .ok (some r) ∧
      ∀ l ∈ splitCh "# T\nhello".data, l <:+: r.integrated_content :=
  ⟨_, rfl,
    integration_preserves_champion_lines
      ⟨⟨false, false, true, false⟩, ⟨true, true, true, true, 2⟩⟩
      (fun _ _ => []) (fun p => if p == "p".data then some "# T\nhello".data else none)
      "2026-01-01".data "doc.md".data
      { champion := "fa".data, champion_path := "p".data, champion_score := 0,
        improvements :=
          [{ type := "new_section".data, source_folder := "fb".data,
             value := "high".data, reason := [], title := some "N".data,
             content := some "## N\nbody".data }],
        improvement_count := 1 } _ "# T\nhello".data rfl rfl⟩

end DocConsolidation
